import Mathlib

/-!
Shallow embedding of the aml event-loop core (the library whose public entry
points are aml_new, aml_start, aml_stop, aml_emit, aml_dispatch, aml_ref,
aml_unref, aml_try_ref and the typed factories).  Objects are identified by
numeric heap keys (pointer surrogates); the heap is an association list from
keys to object records.  Machine integers are modelled as Nat with explicit
reduction modulo 2^32 / 2^64 at the points where the C code uses uint32_t /
unsigned long long arithmetic.  Fallible C paths (NULL returns, assert
failures, abort(), undefined behaviour on invalid pointers) are modelled with
Option / explicit result constructors.  Ghost fields (invoked, firedLog,
setDeadlines, modFdLog, interrupts) record observable calls without affecting
the modelled control flow.
-/

set_option autoImplicit false

namespace Aml

/-- Modulus for unsigned long long (64-bit object ids and deadlines). -/
def U64 : Nat := 2 ^ 64

/-- Modulus for uint32_t (timer timeouts and readiness masks). -/
def U32 : Nat := 2 ^ 32

/-- The enum aml_obj_type tag of a source object. -/
inductive ObjType where
  | unspec
  | aml
  | handler
  | timer
  | ticker
  | signal
  | work
  | idle
deriving DecidableEq, Repr

/-- One struct aml_obj (with the per-kind fields flattened in, as the C
structs embed struct aml_obj as a common header).  `ref` is the reference
count, `id` the global id assigned by aml__obj_global_ref, `hasCb` whether the
dispatch callback pointer is non-NULL.  Handler fields: `fd`, `eventMask`,
`revents` (the atomic pending mask), `parent`.  Timer/ticker fields:
`timeout` (duration, uint32_t) and `deadline` (uint64_t).  Signal field:
`signo`. -/
structure Obj where
  type : ObjType
  ref : Nat
  id : Nat := 0
  hasCb : Bool := false
  fd : Int := -1
  eventMask : Nat := 1
  revents : Nat := 0
  timeout : Nat := 0
  deadline : Nat := 0
  signo : Int := 0
  parent : Option Nat := none
deriving DecidableEq, Repr

/-- Outcomes of the backend hooks that aml calls through struct aml_backend.
The loop core only observes success or failure of each registration call;
`edgeTriggered` models the AML_BACKEND_EDGE_TRIGGERED capability flag. -/
structure Backend where
  addFdOk : Bool := true
  delFdOk : Bool := true
  addSignalOk : Bool := true
  delSignalOk : Bool := true
  enqueueWorkOk : Bool := true
  edgeTriggered : Bool := false
deriving DecidableEq, Repr

/-- Per-loop state of struct aml: the started list obj_list (head insertion),
timer_list, idle_list and the FIFO event_queue, plus ghost logs of backend
calls (set_deadline pushes, mod_fd calls, interrupt count). -/
structure LoopState where
  backend : Backend := {}
  objList : List Nat := []
  timerList : List Nat := []
  idleList : List Nat := []
  eventQueue : List Nat := []
  setDeadlines : List Nat := []
  modFdLog : List Nat := []
  interrupts : Nat := 0
deriving DecidableEq, Repr

/-- The whole modelled process state: the heap of live objects, the loops,
the global registry list aml__obj_list (head = most recently registered), the
id counter aml__obj_id, a fresh-key counter for allocation, and the ghost log
of callback invocations and timer fires. -/
structure AmlState where
  objs : List (Nat × Obj) := []
  loops : List (Nat × LoopState) := []
  globalList : List Nat := []
  nextId : Nat := 0
  nextKey : Nat := 0
  invoked : List Nat := []
  firedLog : List (Nat × Nat) := []
deriving DecidableEq, Repr

/-- Association-list lookup by key (first match). -/
def assocFind {α : Type} (l : List (Nat × α)) (k : Nat) : Option α :=
  match l with
  | [] => none
  | (k', v) :: t => if k' = k then some v else assocFind t k

/-- Association-list in-place update of every entry with the given key. -/
def assocUpdate {α : Type} (l : List (Nat × α)) (k : Nat) (f : α → α) :
    List (Nat × α) :=
  l.map (fun p => (p.1, if p.1 = k then f p.2 else p.2))

/-- Remove the first occurrence of an element from a list (LIST_REMOVE /
TAILQ_REMOVE of a node that occurs once). -/
def removeFirst (k : Nat) : List Nat → List Nat
  | [] => []
  | x :: t => if x = k then t else x :: removeFirst k t

/-- Dereference an object pointer. -/
def findObj (st : AmlState) (k : Nat) : Option Obj :=
  assocFind st.objs k

/-- Mutate the object stored at a key. -/
def updateObj (k : Nat) (f : Obj → Obj) (st : AmlState) : AmlState :=
  { st with objs := assocUpdate st.objs k f }

/-- Association-list removal of the entry with the given key. -/
def assocRemove {α : Type} (l : List (Nat × α)) (k : Nat) : List (Nat × α) :=
  match l with
  | [] => []
  | (k', v) :: t => if k' = k then assocRemove t k else (k', v) :: assocRemove t k

/-- Free an object: remove it from the heap (the user free_fn on the payload
is an external effect outside the model). -/
def removeObj (k : Nat) (st : AmlState) : AmlState :=
  { st with objs := assocRemove st.objs k }

/-- Dereference a loop pointer. -/
def findLoop (st : AmlState) (lk : Nat) : Option LoopState :=
  assocFind st.loops lk

/-- Mutate the loop stored at a key. -/
def updateLoop (lk : Nat) (f : LoopState → LoopState) (st : AmlState) :
    AmlState :=
  { st with loops := assocUpdate st.loops lk f }

/-- aml__obj_global_ref: under the ref lock, assign the next global id
(obj->id = aml__obj_id++) and insert the object at the head of the global
registry list. -/
def aml__obj_global_ref (k : Nat) (st : AmlState) : AmlState :=
  let st := updateObj k (fun o => { o with id := st.nextId }) st
  { st with
    nextId := (st.nextId + 1) % U64,
    globalList := k :: st.globalList }

/-- Result of a typed factory call: a new object key, a NULL return (calloc
failure surfaced to the caller), or a crash (undefined behaviour: the code
dereferenced the NULL result of an inner allocation). -/
inductive NewResult where
  | ok (key : Nat) (st : AmlState)
  | fail (st : AmlState)
  | crash
deriving DecidableEq, Repr

/-- aml_handler_new: allocate, set type/ref/cb, fd and the default event
mask, then aml__obj_global_ref.  allocOk models whether calloc succeeds. -/
def aml_handler_new (allocOk : Bool) (fd : Int) (hasCb : Bool)
    (st : AmlState) : NewResult :=
  if !allocOk then .fail st
  else
    let k := st.nextKey
    let o : Obj := { type := .handler, ref := 1, hasCb := hasCb, fd := fd }
    let st := { st with nextKey := k + 1, objs := st.objs ++ [(k, o)] }
    .ok k (aml__obj_global_ref k st)

/-- aml_timer_new: allocate, set type/ref/cb and the uint32_t timeout, then
aml__obj_global_ref. -/
def aml_timer_new (allocOk : Bool) (timeout : Nat) (hasCb : Bool)
    (st : AmlState) : NewResult :=
  if !allocOk then .fail st
  else
    let k := st.nextKey
    let o : Obj :=
      { type := .timer, ref := 1, hasCb := hasCb, timeout := timeout % U32 }
    let st := { st with nextKey := k + 1, objs := st.objs ++ [(k, o)] }
    .ok k (aml__obj_global_ref k st)

/-- aml_ticker_new: calls aml_timer_new and then writes
timer->obj.type = AML_OBJ_TICKER without checking for NULL, so an allocation
failure is a NULL-pointer dereference (crash), not a NULL return. -/
def aml_ticker_new (allocOk : Bool) (period : Nat) (hasCb : Bool)
    (st : AmlState) : NewResult :=
  match aml_timer_new allocOk period hasCb st with
  | .fail _ => .crash
  | .crash => .crash
  | .ok k st => .ok k (updateObj k (fun o => { o with type := .ticker }) st)

/-- aml_signal_new: allocate, set type/ref/cb/signo, aml__obj_global_ref. -/
def aml_signal_new (allocOk : Bool) (signo : Int) (hasCb : Bool)
    (st : AmlState) : NewResult :=
  if !allocOk then .fail st
  else
    let k := st.nextKey
    let o : Obj := { type := .signal, ref := 1, hasCb := hasCb, signo := signo }
    let st := { st with nextKey := k + 1, objs := st.objs ++ [(k, o)] }
    .ok k (aml__obj_global_ref k st)

/-- aml_work_new: allocate, set type/ref/cb/work_fn, aml__obj_global_ref. -/
def aml_work_new (allocOk : Bool) (hasCb : Bool) (st : AmlState) : NewResult :=
  if !allocOk then .fail st
  else
    let k := st.nextKey
    let o : Obj := { type := .work, ref := 1, hasCb := hasCb }
    let st := { st with nextKey := k + 1, objs := st.objs ++ [(k, o)] }
    .ok k (aml__obj_global_ref k st)

/-- aml_idle_new: allocate, set type/ref/cb, aml__obj_global_ref. -/
def aml_idle_new (allocOk : Bool) (hasCb : Bool) (st : AmlState) : NewResult :=
  if !allocOk then .fail st
  else
    let k := st.nextKey
    let o : Obj := { type := .idle, ref := 1, hasCb := hasCb }
    let st := { st with nextKey := k + 1, objs := st.objs ++ [(k, o)] }
    .ok k (aml__obj_global_ref k st)

/-- aml_ref: under the ref lock, return the previous count and increment.
none models use of an invalid pointer (never reached in well-formed runs). -/
def aml_ref (k : Nat) (st : AmlState) : Option (Nat × AmlState) :=
  match findObj st k with
  | none => none
  | some o => some (o.ref, updateObj k (fun o => { o with ref := o.ref + 1 }) st)

/-- Tag-dispatched free of a non-loop source (aml__free_handler,
aml__free_timer, aml__free_signal, aml__free_work, aml__free_idle: run the
user free_fn on the payload, then free).  The AML_OBJ_AML branch of the
switch in aml_unref is handled by aml_unref itself (a loop object never
appears in a started list, timer list or event queue because
aml__start_unchecked rejects AML_OBJ_AML, so the internal unrefs modelled
with this function never free a loop).  The default branch aborts. -/
def aml__free_src_obj (k : Nat) (o : Obj) (st : AmlState) : Option AmlState :=
  match o.type with
  | .handler => some (removeObj k st)
  | .timer => some (removeObj k st)
  | .ticker => some (removeObj k st)
  | .signal => some (removeObj k st)
  | .work => some (removeObj k st)
  | .idle => some (removeObj k st)
  | _ => none

/-- aml_unref restricted to non-loop sources: decrement the count under the
ref lock, remove the registry entry in the same critical section if the count
reached zero, assert the count is non-negative, then free when it is zero.
Returns the new count (the C return value). -/
def aml_unref_src (k : Nat) (st : AmlState) : Option (Nat × AmlState) :=
  match findObj st k with
  | none => none
  | some o =>
    if o.ref = 0 then none
    else
      let r := o.ref - 1
      let st1 := updateObj k (fun o => { o with ref := r }) st
      if r = 0 then
        let st2 := { st1 with globalList := removeFirst k st1.globalList }
        (aml__free_src_obj k o st2).map (fun st3 => (0, st3))
      else some (r, st1)

/-- aml_try_ref: under the ref lock, walk the global registry list for the
first object with the given id; if found, increment its count and return it,
otherwise return NULL. -/
def aml_try_ref (id : Nat) (st : AmlState) : Option Nat × AmlState :=
  match st.globalList.find? (fun k =>
      match findObj st k with
      | some o => o.id = id
      | none => false) with
  | some k => (some k, updateObj k (fun o => { o with ref := o.ref + 1 }) st)
  | none => (none, st)

/-- aml_get_id. -/
def aml_get_id (k : Nat) (st : AmlState) : Option Nat :=
  (findObj st k).map (fun o => o.id)

/-- Backend of a loop (struct aml_backend copied into struct aml). -/
def loopBackend (st : AmlState) (lk : Nat) : Backend :=
  ((findLoop st lk).map (fun L => L.backend)).getD {}

/-- aml__set_deadline: push an earliest-deadline value to the backend
(recorded in the ghost log, most recent first). -/
def aml__set_deadline (st : AmlState) (lk : Nat) (deadline : Nat) : AmlState :=
  updateLoop lk (fun L => { L with setDeadlines := deadline :: L.setDeadlines }) st

/-- aml__mod_fd: re-arm an fd in the backend (mod_fd hook, or del_fd plus
add_fd when the hook is absent); recorded in the ghost log. -/
def aml__mod_fd (st : AmlState) (lk k : Nat) : AmlState :=
  updateLoop lk (fun L => { L with modFdLog := k :: L.modFdLog }) st

/-- aml_interrupt: backend interrupt hook, or a write to the self-pipe;
recorded as a ghost count. -/
def aml_interrupt (st : AmlState) (lk : Nat) : AmlState :=
  updateLoop lk (fun L => { L with interrupts := L.interrupts + 1 }) st

/-- aml__obj_is_started_unlocked: linear scan of the loop's started list. -/
def aml__obj_is_started_unlocked (st : AmlState) (lk k : Nat) : Bool :=
  match findLoop st lk with
  | some L => L.objList.contains k
  | none => false

/-- aml_is_started (the same scan under the obj_list mutex). -/
def aml_is_started (st : AmlState) (lk k : Nat) : Bool :=
  aml__obj_is_started_unlocked st lk k

/-- aml__obj_try_add: under the obj_list mutex, fail with -1 if the object is
already in this loop's started list, otherwise aml_ref it and insert it at
the head of the list. -/
def aml__obj_try_add (st : AmlState) (lk k : Nat) : Option (Int × AmlState) :=
  match findLoop st lk with
  | none => none
  | some L =>
    if L.objList.contains k then some (-1, st)
    else
      match aml_ref k st with
      | none => none
      | some (_, st1) =>
        some (0, updateLoop lk (fun L => { L with objList := k :: L.objList }) st1)

/-- aml__obj_remove (and aml__obj_remove_unlocked): LIST_REMOVE from the
started list followed by aml_unref.  The unref is modelled with
aml_unref_src: the removed object is never a loop, because
aml__start_unchecked rejects AML_OBJ_AML before a loop could stay in a
started list, and aml_unref_src agrees with aml_unref on every non-loop
object. -/
def aml__obj_remove (st : AmlState) (lk k : Nat) : Option AmlState :=
  let st1 := updateLoop lk (fun L => { L with objList := removeFirst k L.objList }) st
  (aml_unref_src k st1).map (fun p => p.2)

/-- aml__obj_try_remove: remove and unref only if present in this loop's
started list, returning 0; otherwise -1. -/
def aml__obj_try_remove (st : AmlState) (lk k : Nat) : Option (Int × AmlState) :=
  match findLoop st lk with
  | none => none
  | some L =>
    if L.objList.contains k then
      (aml__obj_remove st lk k).map (fun st2 => (0, st2))
    else some (-1, st)

/-- aml_emit: for AML_OBJ_HANDLER, atomically OR the (uint32_t) revents into
the pending mask and return without enqueuing if the previous value was
non-zero; in every other case (handler with previously clear mask, and every
non-handler object) append the object to the event queue tail and aml_ref
it.  none models emitting an invalid object or loop pointer. -/
def aml_emit (st : AmlState) (lk k : Nat) (revents : Nat) : Option AmlState :=
  match findObj st k, findLoop st lk with
  | some o, some _ =>
    let rev := revents % U32
    if o.type = .handler then
      let old := o.revents
      let st1 := updateObj k (fun ob => { ob with revents := old ||| rev }) st
      if old ≠ 0 then some st1
      else
        let st2 := updateLoop lk
          (fun L => { L with eventQueue := L.eventQueue ++ [k] }) st1
        (aml_ref k st2).map (fun p => p.2)
    else
      let st2 := updateLoop lk
        (fun L => { L with eventQueue := L.eventQueue ++ [k] }) st
      (aml_ref k st2).map (fun p => p.2)
  | _, _ => none

/-- aml__get_timer_with_earliest_deadline: scan the timer list keeping the
first strictly smaller deadline, starting from UINT64_MAX (so a timer whose
deadline is exactly UINT64_MAX is never selected, as in the C scan). -/
def aml__get_timer_with_earliest_deadline (st : AmlState) (lk : Nat) :
    Option Nat :=
  match findLoop st lk with
  | none => none
  | some L =>
    (L.timerList.foldl (fun acc k =>
      match findObj st k with
      | some o => if o.deadline < acc.1 then (o.deadline, some k) else acc
      | none => acc) (U64 - 1, none)).2

/-- aml__stop_handler: backend del_fd, then clear the parent pointer. -/
def aml__stop_handler (st : AmlState) (lk k : Nat) : Option (Int × AmlState) :=
  if (loopBackend st lk).delFdOk then
    some (0, updateObj k (fun o => { o with parent := none }) st)
  else some (-1, st)

/-- aml__stop_timer: LIST_REMOVE from the loop's timer list. -/
def aml__stop_timer (st : AmlState) (lk k : Nat) : Option (Int × AmlState) :=
  some (0, updateLoop lk (fun L => { L with timerList := removeFirst k L.timerList }) st)

/-- aml__stop_signal: backend del_signal. -/
def aml__stop_signal (st : AmlState) (lk _k : Nat) : Option (Int × AmlState) :=
  if (loopBackend st lk).delSignalOk then some (0, st) else some (-1, st)

/-- aml__stop_work: a no-op (the in-flight work callback may run anyhow). -/
def aml__stop_work (st : AmlState) (_lk _k : Nat) : Option (Int × AmlState) :=
  some (0, st)

/-- aml__stop_idle: LIST_REMOVE from the loop's idle list. -/
def aml__stop_idle (st : AmlState) (lk k : Nat) : Option (Int × AmlState) :=
  some (0, updateLoop lk (fun L => { L with idleList := removeFirst k L.idleList }) st)

/-- aml__stop_unchecked: tag dispatch of the kind-specific stop action;
AML_OBJ_AML returns -1, AML_OBJ_UNSPEC falls through to abort() (none). -/
def aml__stop_unchecked (st : AmlState) (lk k : Nat) : Option (Int × AmlState) :=
  match findObj st k with
  | none => none
  | some o =>
    match o.type with
    | .aml => some (-1, st)
    | .handler => aml__stop_handler st lk k
    | .timer => aml__stop_timer st lk k
    | .ticker => aml__stop_timer st lk k
    | .signal => aml__stop_signal st lk k
    | .work => aml__stop_work st lk k
    | .idle => aml__stop_idle st lk k
    | .unspec => none

/-- aml_stop: take an extra reference for the duration of the call; if the
object is in this loop's started list remove it (dropping the loop's
reference) and run the kind-specific stop action (its return value is
ignored); release the extra reference; always return 0.  The final unref is
modelled with aml_unref_src, which agrees with aml_unref here: the extra
aml_ref taken at the top keeps the count at least one, so the free path of a
loop object cannot be reached. -/
def aml_stop (st : AmlState) (lk k : Nat) : Option (Int × AmlState) := do
  let (_, st1) ← aml_ref k st
  let (rc, st2) ← aml__obj_try_remove st1 lk k
  let st3 ←
    if rc ≥ 0 then (aml__stop_unchecked st2 lk k).map (fun p => p.2)
    else pure st2
  let (_, st4) ← aml_unref_src k st3
  return ((0 : Int), st4)

/-- aml__start_handler: backend add_fd, then set the parent pointer. -/
def aml__start_handler (st : AmlState) (lk k : Nat) : Option (Int × AmlState) :=
  if (loopBackend st lk).addFdOk then
    some (0, updateObj k (fun o => { o with parent := some lk }) st)
  else some (-1, st)

/-- aml__start_timer: set deadline = now + timeout (uint64_t arithmetic) and
insert into the loop's timer list.  A zero-duration object must not be a
ticker (assert, modelled as none); a zero-duration timer is immediately
stopped, emitted and the loop interrupted, so it fires exactly once on the
next dispatch.  Otherwise, if the new timer is the one returned by the
earliest-deadline scan, its deadline is pushed to the backend. -/
def aml__start_timer (now : Nat) (st : AmlState) (lk k : Nat) :
    Option (Int × AmlState) :=
  match findObj st k with
  | none => none
  | some o =>
    let dl := (now + o.timeout) % U64
    let st1 := updateObj k (fun ob => { ob with deadline := dl }) st
    let st2 := updateLoop lk (fun L => { L with timerList := k :: L.timerList }) st1
    if o.timeout = 0 then
      if o.type = .ticker then none
      else do
        let (_, st3) ← aml_stop st2 lk k
        let st4 ← aml_emit st3 lk k 0
        return ((0 : Int), aml_interrupt st4 lk)
    else
      if aml__get_timer_with_earliest_deadline st2 lk = some k then
        some (0, aml__set_deadline st2 lk dl)
      else some (0, st2)

/-- aml__start_signal: backend add_signal. -/
def aml__start_signal (st : AmlState) (lk _k : Nat) : Option (Int × AmlState) :=
  if (loopBackend st lk).addSignalOk then some (0, st) else some (-1, st)

/-- aml__start_work: thread-pool enqueue. -/
def aml__start_work (st : AmlState) (lk _k : Nat) : Option (Int × AmlState) :=
  if (loopBackend st lk).enqueueWorkOk then some (0, st) else some (-1, st)

/-- aml__start_idle: LIST_INSERT_HEAD into the loop's idle list. -/
def aml__start_idle (st : AmlState) (lk k : Nat) : Option (Int × AmlState) :=
  some (0, updateLoop lk (fun L => { L with idleList := k :: L.idleList }) st)

/-- aml__start_unchecked: tag dispatch of the kind-specific start action;
AML_OBJ_AML returns -1, AML_OBJ_UNSPEC falls through to abort() (none). -/
def aml__start_unchecked (now : Nat) (st : AmlState) (lk k : Nat) :
    Option (Int × AmlState) :=
  match findObj st k with
  | none => none
  | some o =>
    match o.type with
    | .aml => some (-1, st)
    | .handler => aml__start_handler st lk k
    | .timer => aml__start_timer now st lk k
    | .ticker => aml__start_timer now st lk k
    | .signal => aml__start_signal st lk k
    | .work => aml__start_work st lk k
    | .idle => aml__start_idle st lk k
    | .unspec => none

/-- aml_start: try to add to this loop's started list (fails only if already
in it); on success run the kind-specific start action; reverse the insertion
and return -1 if the action fails.  `now` is the clock value aml__gettime_ms
would read during a timer start. -/
def aml_start (now : Nat) (st : AmlState) (lk k : Nat) :
    Option (Int × AmlState) := do
  let (rc1, st1) ← aml__obj_try_add st lk k
  if rc1 < 0 then
    return ((-1 : Int), st1)
  else
    let (rc2, st2) ← aml__start_unchecked now st1 lk k
    if rc2 = 0 then
      return ((0 : Int), st2)
    else do
      let st3 ← aml__obj_remove st2 lk k
      return ((-1 : Int), st3)

/-- Environment of user dispatch callbacks: given the object the callback is
invoked on and the current state, produce the state after the callback body
(callbacks may call back into the library; none models a callback whose body
hits an abort). -/
def Env : Type := Nat → AmlState → Option AmlState

/-- A callback environment whose callbacks have no effect on the modelled
state. -/
def noopEnv : Env := fun _ st => some st

/-- aml__handle_event: take an extra reference so the object outlives a stop
from inside its own callback; run the callback if present (logged in the
ghost `invoked` list); afterwards, for handlers, clear the pending mask and
re-arm via mod_fd on edge-triggered backends; release the extra reference
(aml_unref_src again agrees with aml_unref: queued objects are sources). -/
def aml__handle_event (env : Env) (st : AmlState) (lk k : Nat) :
    Option AmlState := do
  let (_, st1) ← aml_ref k st
  let o1 ← findObj st1 k
  let st2 ←
    if o1.hasCb then env k { st1 with invoked := st1.invoked ++ [k] }
    else pure st1
  let o2 ← findObj st2 k
  let st3 ←
    if o2.type = .handler then
      let stH := updateObj k (fun ob => { ob with revents := 0 }) st2
      if (loopBackend stH lk).edgeTriggered then pure (aml__mod_fd stH lk k)
      else pure stH
    else pure st2
  let (_, st4) ← aml_unref_src k st3
  return st4

/-- aml__event_dequeue: pop the event-queue head under the queue lock. -/
def aml__event_dequeue (st : AmlState) (lk : Nat) : Option Nat × AmlState :=
  match findLoop st lk with
  | none => (none, st)
  | some L =>
    match L.eventQueue with
    | [] => (none, st)
    | k :: t => (some k, updateLoop lk (fun L => { L with eventQueue := t }) st)

/-- Phase 2 of aml_dispatch: dequeue-and-invoke until the queue is empty,
releasing the enqueue-held reference after each callback.  The C loop has no
bound (callbacks may keep emitting), so the model takes fuel; none means the
fuel ran out or an inner step aborted. -/
def aml__event_drain (env : Env) (fuel : Nat) (st : AmlState) (lk : Nat) :
    Option AmlState :=
  match fuel with
  | 0 => none
  | fuel + 1 =>
    match aml__event_dequeue st lk with
    | (none, st) => some st
    | (some k, st1) => do
      let st2 ← aml__handle_event env st1 lk k
      let (_, st3) ← aml_unref_src k st2
      aml__event_drain env fuel st3 lk

/-- aml__handle_timeout: find the timer with the earliest deadline; if there
is none or it is not yet due, report false; otherwise emit it (logged with
its deadline in the ghost firedLog), then re-arm by kind: a Timer is stopped,
a Ticker advances its deadline by its timeout (uint64_t arithmetic); any
other tag in the timer list aborts. -/
def aml__handle_timeout (now : Nat) (st : AmlState) (lk : Nat) :
    Option (Bool × AmlState) :=
  match aml__get_timer_with_earliest_deadline st lk with
  | none => some (false, st)
  | some k =>
    match findObj st k with
    | none => none
    | some o =>
      if o.deadline > now then some (false, st)
      else do
        let st1 ← aml_emit st lk k 0
        let st1 := { st1 with firedLog := st1.firedLog ++ [(k, o.deadline)] }
        match o.type with
        | .timer => do
          let (_, st2) ← aml_stop st1 lk k
          return (true, st2)
        | .ticker =>
          return (true, updateObj k
            (fun ob => { ob with deadline := (ob.deadline + ob.timeout) % U64 }) st1)
        | _ => none

/-- Phase 1 of aml_dispatch: while (aml__handle_timeout(self, now)); the C
loop does not terminate if a zero-duration ticker is due, so the model takes
fuel. -/
def aml__drain_timers (fuel : Nat) (now : Nat) (st : AmlState) (lk : Nat) :
    Option AmlState :=
  match fuel with
  | 0 => none
  | fuel + 1 => do
    let (fired, st1) ← aml__handle_timeout now st lk
    if fired then aml__drain_timers fuel now st1 lk else return st1

/-- Iteration of aml__handle_idle over a snapshot of the idle list, invoking
every idle's callback (callbacks that mutate the idle list mid-iteration are
outside the model; the C LIST_FOREACH has undefined behaviour there). -/
def aml__handle_idle_go (env : Env) : List Nat → AmlState → Option AmlState
  | [], st => some st
  | k :: t, st =>
    match findObj st k with
    | none => none
    | some o => do
      let st1 ←
        if o.hasCb then env k { st with invoked := st.invoked ++ [k] }
        else pure st
      aml__handle_idle_go env t st1

/-- Phase 3 of aml_dispatch: walk the idle list and invoke every callback. -/
def aml__handle_idle (env : Env) (st : AmlState) (lk : Nat) : Option AmlState :=
  match findLoop st lk with
  | none => none
  | some L => aml__handle_idle_go env L.idleList st

/-- aml_dispatch: compute now once; drain due timers; then, if a timer
remains, assert its deadline is in the future (none models the assert
failing) and push it to the backend via set_deadline; drain the event queue
with signals blocked; run the idle list.  post_dispatch is a backend no-op
hook.  The ghost firedLog is reset at entry so that it records the fires of
this pass. -/
def aml_dispatch (env : Env) (fuelT fuelQ : Nat) (now : Nat) (st : AmlState)
    (lk : Nat) : Option AmlState :=
  match findLoop st lk with
  | none => none
  | some _ => do
    let st := { st with firedLog := [] }
    let st1 ← aml__drain_timers fuelT now st lk
    let st2 ←
      match aml__get_timer_with_earliest_deadline st1 lk with
      | some k =>
        match findObj st1 k with
        | none => none
        | some o =>
          if o.deadline > now then some (aml__set_deadline st1 lk o.deadline)
          else none
      | none => some st1
    let st3 ← aml__event_drain env fuelQ st2 lk
    aml__handle_idle env st3 lk

/-- The while loop at the top of aml__free: stop and remove every remaining
started source (each iteration pops the list head, so the initial length
bounds the iteration count and is passed as fuel by aml__free). -/
def aml__free_stop_all (fuel : Nat) (st : AmlState) (lk : Nat) :
    Option AmlState :=
  match fuel with
  | 0 =>
    match findLoop st lk with
    | some L => if L.objList.isEmpty then some st else none
    | none => none
  | fuel + 1 =>
    match findLoop st lk with
    | none => none
    | some L =>
      match L.objList with
      | [] => some st
      | k :: _ => do
        let (_, st1) ← aml__stop_unchecked st lk k
        let st2 ← aml__obj_remove st1 lk k
        aml__free_stop_all fuel st2 lk

/-- The queue-draining loop of aml__free: release every queued reference. -/
def aml__free_drain_queue (fuel : Nat) (st : AmlState) (lk : Nat) :
    Option AmlState :=
  match fuel with
  | 0 =>
    match findLoop st lk with
    | some L => if L.eventQueue.isEmpty then some st else none
    | none => none
  | fuel + 1 =>
    match findLoop st lk with
    | none => none
    | some L =>
      match L.eventQueue with
      | [] => some st
      | k :: t => do
        let st1 := updateLoop lk (fun L => { L with eventQueue := t }) st
        let (_, st2) ← aml_unref_src k st1
        aml__free_drain_queue fuel st2 lk

/-- aml__free: ordered teardown of a loop whose count reached zero: stop and
remove every remaining started source, release the thread pool and backend
state (external effects), drain the event queue releasing every queued
reference, destroy the mutexes, free. -/
def aml__free (lk : Nat) (st : AmlState) : Option AmlState :=
  match findLoop st lk with
  | none => none
  | some L => do
    let st1 ← aml__free_stop_all L.objList.length st lk
    let qlen := (((findLoop st1 lk).map (fun L => L.eventQueue.length)).getD 0)
    let st2 ← aml__free_drain_queue qlen st1 lk
    let st3 := { st2 with loops := st2.loops.filter (fun p => p.1 ≠ lk) }
    return removeObj lk st3

/-- aml_unref: decrement the count under the ref lock and remove the registry
entry in the same critical section when the count reaches zero; then run the
tag-dispatched finalizer (aml__free for a loop, the per-kind free otherwise;
AML_OBJ_UNSPEC hits the default abort()).  Returns the new count. -/
def aml_unref (k : Nat) (st : AmlState) : Option (Nat × AmlState) :=
  match findObj st k with
  | none => none
  | some o =>
    if o.ref = 0 then none
    else
      let r := o.ref - 1
      let st1 := updateObj k (fun ob => { ob with ref := r }) st
      if r = 0 then
        let st2 := { st1 with globalList := removeFirst k st1.globalList }
        match o.type with
        | .aml => (aml__free k st2).map (fun st3 => (0, st3))
        | _ => (aml__free_src_obj k o st2).map (fun st3 => (0, st3))
      else some (r, st1)

/-!
Concrete fixture states used by counterexamples and witnesses.  `baseState`
is the state right after aml_new on a backend that has a native interrupt
hook (so no self-pipe handler is registered): one loop object, ref 1, id 0,
registered in the global list, id counter and key counter at 1.
-/

/-- The struct aml header of a freshly created loop. -/
def baseLoopObj : Obj := { type := .aml, ref := 1, id := 0 }

/-- State after aml_new: loop object at key 0 with empty lists. -/
def baseState : AmlState :=
  { objs := [(0, baseLoopObj)], loops := [(0, {})], globalList := [0],
    nextId := 1, nextKey := 1 }

/-- Convenience projection: the hasCb flag of an object (false for a
dangling key). -/
def hasCbB (st : AmlState) (k : Nat) : Bool :=
  ((findObj st k).map (fun o => o.hasCb)).getD false

/-- Convenience projection: the key of a factory result. -/
def newKeyOf : NewResult → Option Nat
  | .ok k _ => some k
  | _ => none

/-- Convenience projection: the state of a factory result. -/
def newStateOf : NewResult → Option AmlState
  | .ok _ st => some st
  | .fail st => some st
  | .crash => none

/-- State after aml_signal_new(SIGINT, cb, ...) on baseState: signal object
at key 1. -/
def sigNewState : AmlState :=
  match aml_signal_new true 2 true baseState with
  | .ok _ st => st
  | _ => baseState

/-- State after additionally aml_start(loop, sig). -/
def sigStartedState : AmlState :=
  match aml_start 100 sigNewState 0 1 with
  | some (_, st) => st
  | none => sigNewState

/-- State after additionally aml_emit(loop, sig, 0): the signal sits in the
event queue. -/
def sigQueuedState : AmlState :=
  (aml_emit sigStartedState 0 1 0).getD sigStartedState

/-- State after additionally aml_stop(loop, sig): stopped, but still in the
event queue. -/
def sigStoppedState : AmlState :=
  match aml_stop sigQueuedState 0 1 with
  | some (_, st) => st
  | none => sigQueuedState

/-- Two loops (keys 0 and 1) and one idle source (key 2), nothing started. -/
def twoLoopState : AmlState :=
  { objs := [(0, baseLoopObj), (1, { type := .aml, ref := 1, id := 1 }),
             (2, { type := .idle, ref := 1, id := 2, hasCb := true })],
    loops := [(0, {}), (1, {})], globalList := [2, 1, 0],
    nextId := 3, nextKey := 3 }

/-- A loop with one started one-shot timer (deadline 50), one started ticker
(period 30, deadline 40) and one started timer that is not yet due
(deadline 500). -/
def timersState : AmlState :=
  { objs := [(0, baseLoopObj),
             (1, { type := .timer, ref := 2, id := 1, hasCb := true,
                   timeout := 10, deadline := 50 }),
             (2, { type := .ticker, ref := 2, id := 2, hasCb := true,
                   timeout := 30, deadline := 40 }),
             (3, { type := .timer, ref := 2, id := 3, hasCb := true,
                   timeout := 99, deadline := 500 })],
    loops := [(0, { objList := [1, 2, 3], timerList := [1, 2, 3] })],
    globalList := [3, 2, 1, 0], nextId := 4, nextKey := 4 }

/-- A loop whose event queue holds an object with the AML_OBJ_UNSPEC tag. -/
def unspecState : AmlState :=
  { objs := [(0, baseLoopObj),
             (5, { type := .unspec, ref := 2, id := 7, hasCb := true })],
    loops := [(0, { eventQueue := [5] })], globalList := [5, 0],
    nextId := 8, nextKey := 6 }

/-- A callback that calls aml_stop(loop, obj) and then aml_unref(obj) on the
object it was invoked on: the user stops and releases the source from inside
its own dispatch callback. -/
def stopUnrefEnv (lk : Nat) : Env := fun k st => do
  let (_, st1) ← aml_stop st lk k
  let (_, st2) ← aml_unref k st1
  return st2

/-- A started fd handler (key 4, ref 3: creation + loop + queue reference)
whose readiness is pending, on an edge-triggered backend. -/
def handlerQueuedState : AmlState :=
  { objs := [(0, baseLoopObj),
             (4, { type := .handler, ref := 3, id := 4, hasCb := true,
                   fd := 7, revents := 1, parent := some 0 })],
    loops := [(0, { backend := { edgeTriggered := true },
                    objList := [4], eventQueue := [4] })],
    globalList := [4, 0], nextId := 5, nextKey := 5 }

/-- Iterated object creation: n calls of aml_timer_new (each one allocates
and runs aml__obj_global_ref, which assigns the next global id). -/
def createTimers : Nat → AmlState → AmlState
  | 0, st => st
  | n + 1, st =>
    match aml_timer_new true 1 false st with
    | .ok _ st' => createTimers n st'
    | _ => st

/-- The id the first factory call of the process assigns (the counter
aml__obj_id starts at 0). -/
def firstAssignedId : Option Nat :=
  match aml_timer_new true 5 true {} with
  | .ok k st => aml_get_id k st
  | _ => none

/-- Boolean check whether the object at a key carries a given id (false for
a dangling key); decidable form used in uniqueness hypotheses. -/
def hasIdB (st : AmlState) (k' id : Nat) : Bool :=
  ((findObj st k').map (fun o => o.id == id)).getD false

/-- A loop plus one unstarted zero-duration timer (key 1). -/
def timerZeroState : AmlState :=
  match aml_timer_new true 0 true baseState with
  | .ok _ st => st
  | _ => baseState

/-- The coalescing invariant for an fd handler: it occupies the event queue
at most once, and only while its pending mask is non-zero. -/
def HandlerQueueInv (st : AmlState) (lk k : Nat) : Prop :=
  ∀ L, findLoop st lk = some L →
    L.eventQueue.count k ≤ 1 ∧
    (k ∈ L.eventQueue → ∀ o, findObj st k = some o → o.revents ≠ 0)

/-- Ghost reading: the deadline of the most recently fired timer in this
dispatch pass (0 before the first fire). -/
def lastFired (st : AmlState) : Nat :=
  ((st.firedLog.map Prod.snd).getLast?).getD 0

def TimerInv (st : AmlState) (lk : Nat) : Prop :=
  ∃ L, findLoop st lk = some L ∧ L.timerList.Nodup ∧
    ∀ j ∈ L.timerList, ∃ oj, findObj st j = some oj ∧
      (oj.type = .timer ∧ j ∈ L.objList ∨ oj.type = .ticker) ∧
      oj.timeout < U32 ∧ 1 ≤ oj.ref ∧
      lastFired st ≤ oj.deadline

/-- Decidable well-formedness of a loop's timer list: the list has no
duplicates and every entry is a live timer (in the started list) or ticker
with a sane period whose deadline is at or after the last fired deadline. -/
def TimerInvB (st : AmlState) (lk : Nat) : Bool :=
  match findLoop st lk with
  | none => false
  | some L =>
    decide L.timerList.Nodup &&
    L.timerList.all (fun j =>
      match findObj st j with
      | none => false
      | some oj =>
        ((decide (oj.type = .timer) && L.objList.contains j) ||
          decide (oj.type = .ticker)) &&
        decide (oj.timeout < U32) && decide (1 ≤ oj.ref) &&
        decide (lastFired st ≤ oj.deadline))

/-- The state of timersState after the timer-drain phase at now = 100. -/
def timersDrained : AmlState :=
  (aml__drain_timers 10 100 timersState 0).getD baseState

/-- No armed timer of the loop is due at `now` (the earliest-deadline scan
returns nothing, or a timer strictly in the future). -/
def noDueTimerB (st : AmlState) (lk now : Nat) : Bool :=
  match aml__get_timer_with_earliest_deadline st lk with
  | none => true
  | some k =>
    match findObj st k with
    | some o => decide (now < o.deadline)
    | none => false

/-- Decidable liveness of the event queue: every queued key is a live non-fd
source holding at least one reference per queue occurrence. -/
def queueLiveB (st : AmlState) (lk : Nat) : Bool :=
  match findLoop st lk with
  | none => false
  | some L =>
    L.eventQueue.all (fun k =>
      match findObj st k with
      | none => false
      | some o =>
        decide (L.eventQueue.count k ≤ o.ref) &&
        decide (o.type ≠ .handler) && decide (o.type ≠ .aml) &&
        decide (o.type ≠ .unspec))

/-!
Helper lemmas about the heap and loop accessors.
-/

theorem assocFind_assocUpdate {α : Type} (l : List (Nat × α)) (k k' : Nat)
    (f : α → α) :
    assocFind (assocUpdate l k f) k' =
      if k' = k then (assocFind l k').map f else assocFind l k' := by
  induction l with
  | nil => by_cases h : k' = k <;> simp [assocFind, assocUpdate, h]
  | cons p t ih =>
    obtain ⟨a, v⟩ := p
    simp only [assocUpdate, List.map_cons] at ih ⊢
    by_cases hak : a = k
    · subst hak
      by_cases h2 : a = k'
      · subst h2; simp [assocFind, ih]
      · simp [assocFind, h2, Ne.symm h2, ih]
    · by_cases h2 : a = k'
      · subst h2
        simp [assocFind, hak, Ne.symm hak, ih]
      · simp [assocFind, hak, h2, ih]

theorem assocFind_assocRemove {α : Type} (l : List (Nat × α)) (k k' : Nat) :
    assocFind (assocRemove l k) k' =
      if k' = k then none else assocFind l k' := by
  induction l with
  | nil => by_cases h : k' = k <;> simp [assocFind, assocRemove, h]
  | cons p t ih =>
    obtain ⟨a, v⟩ := p
    by_cases hak : a = k
    · subst hak
      by_cases h2 : a = k'
      · subst h2; simp [assocFind, assocRemove, ih]
      · simp [assocFind, assocRemove, h2, Ne.symm h2, ih]
    · by_cases h2 : a = k'
      · subst h2
        simp [assocFind, assocRemove, hak, Ne.symm hak, ih]
      · simp [assocFind, assocRemove, hak, h2, ih]

theorem findObj_updateObj (st : AmlState) (k k' : Nat) (f : Obj → Obj) :
    findObj (updateObj k f st) k' =
      if k' = k then (findObj st k').map f else findObj st k' := by
  simp [findObj, updateObj, assocFind_assocUpdate]

theorem findObj_updateObj_self (st : AmlState) (k : Nat) (f : Obj → Obj) :
    findObj (updateObj k f st) k = (findObj st k).map f := by
  simp [findObj_updateObj]

theorem findObj_updateObj_ne (st : AmlState) (k k' : Nat) (f : Obj → Obj)
    (h : k' ≠ k) : findObj (updateObj k f st) k' = findObj st k' := by
  simp [findObj_updateObj, h]

theorem findObj_updateLoop (st : AmlState) (lk k : Nat)
    (f : LoopState → LoopState) :
    findObj (updateLoop lk f st) k = findObj st k := rfl

theorem findLoop_updateObj (st : AmlState) (lk k : Nat) (f : Obj → Obj) :
    findLoop (updateObj k f st) lk = findLoop st lk := rfl

theorem findLoop_updateLoop (st : AmlState) (lk lk' : Nat)
    (f : LoopState → LoopState) :
    findLoop (updateLoop lk f st) lk' =
      if lk' = lk then (findLoop st lk').map f else findLoop st lk' := by
  simp [findLoop, updateLoop, assocFind_assocUpdate]

theorem findObj_removeObj (st : AmlState) (k k' : Nat) :
    findObj (removeObj k st) k' =
      if k' = k then none else findObj st k' := by
  simp [findObj, removeObj, assocFind_assocRemove]

theorem removeFirst_eq_erase (k : Nat) (l : List Nat) :
    removeFirst k l = l.erase k := by
  induction l with
  | nil => rfl
  | cons a t ih =>
    by_cases h : a = k <;> simp [removeFirst, List.erase_cons, h, ih]

theorem removeFirst_cons_self (k : Nat) (l : List Nat) :
    removeFirst k (k :: l) = l := by
  simp [removeFirst]

theorem find?_eq_some_of_first {α : Type} (p : α → Bool) (l : List α) (a : α)
    (ha : a ∈ l) (hp : p a = true)
    (huniq : ∀ b ∈ l, p b = true → b = a) :
    l.find? p = some a := by
  induction l with
  | nil => cases ha
  | cons x t ih =>
    by_cases hx : p x = true
    · have hxa : x = a := huniq x (List.mem_cons_self x t) hx
      subst hxa
      simp [List.find?, hx]
    · simp only [List.find?]
      rw [Bool.not_eq_true] at hx
      rw [hx]
      rcases List.mem_cons.mp ha with h | h
      · subst h; exact absurd hp (by simp [hx])
      · exact ih h (fun b hb hpb => huniq b (List.mem_cons_of_mem x hb) hpb)

theorem aml_unref_to_zero (st : AmlState) (k : Nat) (o : Obj)
    (hk : findObj st k = some o) (href : o.ref = 1)
    (htA : o.type ≠ .aml) (htU : o.type ≠ .unspec) :
    aml_unref k st = some (0, removeObj k
      { updateObj k (fun ob => { ob with ref := o.ref - 1 }) st with
        globalList := removeFirst k st.globalList }) := by
  rcases htype : o.type <;> simp_all [aml_unref, aml__free_src_obj, updateObj]

theorem hasIdB_false (st : AmlState) (k' id : Nat) (o' : Obj)
    (h : hasIdB st k' id = false) (hf : findObj st k' = some o') :
    o'.id ≠ id := by
  simp [hasIdB, hf] at h
  exact h

theorem assocUpdate_append_fresh {α : Type} (l : List (Nat × α)) (k : Nat)
    (o : α) (f : α → α) (h : ∀ p ∈ l, p.1 ≠ k) :
    assocUpdate (l ++ [(k, o)]) k f = l ++ [(k, f o)] := by
  unfold assocUpdate
  rw [List.map_append]
  congr 1
  · conv_rhs => rw [show l = l.map id from (List.map_id l).symm]
    apply List.map_congr_left
    intro p hp
    simp [h p hp]
  · simp

theorem assocUpdate_not_mem {α : Type} (l : List (Nat × α)) (k : Nat)
    (f : α → α) (h : ∀ p ∈ l, p.1 ≠ k) : assocUpdate l k f = l := by
  induction l with
  | nil => rfl
  | cons p t ih =>
    obtain ⟨a, v⟩ := p
    have ha : a ≠ k := h (a, v) (List.mem_cons_self _ _)
    have ht : assocUpdate t k f = t :=
      ih (fun q hq => h q (List.mem_cons_of_mem _ hq))
    simp only [assocUpdate, List.map_cons] at ht ⊢
    simp [ha, ht]

theorem findObj_setInvoked (st : AmlState) (l : List Nat) (k : Nat) :
    findObj { st with invoked := l } k = findObj st k := rfl

theorem findLoop_setInvoked (st : AmlState) (l : List Nat) (lk : Nat) :
    findLoop { st with invoked := l } lk = findLoop st lk := rfl

theorem invoked_updateObj (st : AmlState) (k : Nat) (f : Obj → Obj) :
    (updateObj k f st).invoked = st.invoked := rfl

theorem invoked_updateLoop (st : AmlState) (lk : Nat)
    (f : LoopState → LoopState) :
    (updateLoop lk f st).invoked = st.invoked := rfl

theorem start_zero_ticker_aborts (now : Nat) (st : AmlState) (lk k : Nat) (o : Obj)
    (L : LoopState) (hL : findLoop st lk = some L)
    (hk : findObj st k = some o)
    (ht : o.type = .ticker) (hto : o.timeout = 0)
    (hmem : k ∉ L.objList) :
    aml_start now st lk k = none := by
  simp [aml_start, aml__obj_try_add, hL, hmem,
    aml_ref, hk, aml__start_unchecked, findObj_updateObj_self,
    findObj_updateLoop, ht, aml__start_timer, findObj_updateObj, hto]

theorem start_unspec_aborts (now : Nat) (st : AmlState) (lk k : Nat) (o : Obj)
    (L : LoopState) (hL : findLoop st lk = some L)
    (hk : findObj st k = some o)
    (ht : o.type = .unspec)
    (hmem : k ∉ L.objList) :
    aml_start now st lk k = none := by
  simp [aml_start, aml__obj_try_add, hL, hmem,
    aml_ref, hk, aml__start_unchecked, findObj_updateObj_self,
    findObj_updateLoop, ht]

theorem stop_started_unspec_aborts (st : AmlState) (lk k : Nat) (o : Obj)
    (L : LoopState) (hL : findLoop st lk = some L)
    (hk : findObj st k = some o)
    (ht : o.type = .unspec)
    (hmem : k ∈ L.objList) :
    aml_stop st lk k = none := by
  simp [aml_stop, aml_ref, hk, aml__obj_try_remove, findLoop_updateObj, hL,
    hmem, aml__obj_remove, aml_unref_src,
    findObj_updateObj, findObj_updateLoop, ht, aml__free_src_obj,
    aml__stop_unchecked]

theorem handle_event_unspec_no_abort (st : AmlState) (lk k : Nat) (o : Obj)
    (hk : findObj st k = some o)
    (ht : o.type = .unspec) (hcb : o.hasCb = true) (href : 1 ≤ o.ref) :
    ∃ st', aml__handle_event noopEnv st lk k = some st' ∧
      st'.invoked = st.invoked ++ [k] := by
  have h0 : ¬ o.ref = 0 := by omega
  simp [aml__handle_event, aml_ref, hk, noopEnv, findObj_updateObj_self,
    hcb, ht, aml_unref_src, findObj_updateObj, findObj_setInvoked,
    invoked_updateObj, h0]

theorem assocUpdate_update_restore {α : Type} (l : List (Nat × α)) (k : Nat)
    (o : α) (f g : α → α)
    (hfind : assocFind l k = some o)
    (hnodup : (l.map Prod.fst).Nodup)
    (hgf : g (f o) = o) :
    assocUpdate (assocUpdate l k f) k g = l := by
  induction l with
  | nil => rfl
  | cons p t ih =>
    obtain ⟨a, v⟩ := p
    simp only [List.map_cons, List.nodup_cons] at hnodup
    by_cases hak : a = k
    · subst hak
      have hov : o = v := by
        simp [assocFind] at hfind
        exact hfind.symm
      subst hov
      have hnot : ∀ q ∈ t, q.1 ≠ a := by
        intro q hq
        intro hqa
        exact hnodup.1 (hqa ▸ List.mem_map_of_mem Prod.fst hq)
      simp only [assocUpdate, List.map_cons, List.map_map, if_pos rfl]
      congr 1
      · simp [hgf]
      · have hpt : ∀ q ∈ t,
            ((fun p => (p.1, if p.1 = a then g p.2 else p.2)) ∘
             (fun p => (p.1, if p.1 = a then f p.2 else p.2))) q = q := by
          intro q hq
          simp [Function.comp, hnot q hq]
        rw [List.map_congr_left hpt]
        exact List.map_id t
    · have hfind' : assocFind t k = some o := by
        simpa [assocFind, hak] using hfind
      simp only [assocUpdate, List.map_cons] at ih ⊢
      simp [hak, ih hfind' hnodup.2]

theorem updateObj_restore (st : AmlState) (k : Nat) (o : Obj)
    (hk : findObj st k = some o)
    (hnodup : (st.objs.map Prod.fst).Nodup) :
    updateObj k (fun ob => { ob with ref := o.ref })
      (updateObj k (fun ob => { ob with ref := ob.ref + 1 }) st) = st := by
  show ({ st with objs := (assocUpdate (assocUpdate st.objs k (fun ob => { ob with ref := ob.ref + 1 })) k (fun ob => { ob with ref := o.ref })) } : AmlState) = st
  rw [assocUpdate_update_restore st.objs k o
      (fun ob => { ob with ref := ob.ref + 1 })
      (fun ob => { ob with ref := o.ref }) hk hnodup rfl]

theorem stop_loop_benign (st : AmlState) (lk : Nat) (o : Obj) (L : LoopState)
    (hL : findLoop st lk = some L)
    (hk : findObj st lk = some o)
    (_ht : o.type = .aml)
    (href : 1 ≤ o.ref)
    (hmem : lk ∉ L.objList)
    (hnodup : (st.objs.map Prod.fst).Nodup) :
    aml_stop st lk lk = some (0, st) := by
  have h0 : ¬ o.ref = 0 := by omega
  have hrest := updateObj_restore st lk o hk hnodup
  simp [aml_stop, aml_ref, hk, aml__obj_try_remove, findLoop_updateObj, hL,
    hmem, aml_unref_src, findObj_updateObj_self, h0]
  exact hrest

theorem updateObj_updateLoop_comm (k lk : Nat) (f : Obj → Obj)
    (g : LoopState → LoopState) (st : AmlState) :
    updateObj k f (updateLoop lk g st) = updateLoop lk g (updateObj k f st) := rfl

theorem updateLoop_objList_restore (st : AmlState) (lk k : Nat) (L : LoopState)
    (hL : findLoop st lk = some L)
    (hnodup : (st.loops.map Prod.fst).Nodup) :
    updateLoop lk (fun LL => { LL with objList := removeFirst k LL.objList })
      (updateLoop lk (fun LL => { LL with objList := k :: LL.objList }) st) = st := by
  show ({ st with loops := (assocUpdate (assocUpdate st.loops lk (fun LL => { LL with objList := k :: LL.objList })) lk (fun LL => { LL with objList := removeFirst k LL.objList })) } : AmlState) = st
  rw [assocUpdate_update_restore st.loops lk L
      (fun LL => { LL with objList := k :: LL.objList })
      (fun LL => { LL with objList := removeFirst k LL.objList }) hL hnodup
      (by simp [removeFirst])]

theorem updateObj_ref_restore (st : AmlState) (k : Nat) (o : Obj)
    (hk : findObj st k = some o)
    (hnodup : (st.objs.map Prod.fst).Nodup) :
    updateObj k (fun ob => { ob with ref := o.ref + 1 - 1 })
      (updateObj k (fun ob => { ob with ref := ob.ref + 1 }) st) = st := by
  show ({ st with objs := (assocUpdate (assocUpdate st.objs k (fun ob => { ob with ref := ob.ref + 1 })) k (fun ob => { ob with ref := o.ref + 1 - 1 })) } : AmlState) = st
  rw [assocUpdate_update_restore st.objs k o
      (fun ob => { ob with ref := ob.ref + 1 })
      (fun ob => { ob with ref := o.ref + 1 - 1 }) hk hnodup (by simp)]

theorem start_already_started (now : Nat) (st : AmlState) (lk k : Nat)
    (L : LoopState) (hL : findLoop st lk = some L)
    (hmem : k ∈ L.objList) :
    aml_start now st lk k = some (-1, st) := by
  simp [aml_start, aml__obj_try_add, hL, hmem]

theorem start_idle_ok (now : Nat) (st : AmlState) (lk k : Nat)
    (o : Obj) (L : LoopState)
    (hL : findLoop st lk = some L)
    (hk : findObj st k = some o)
    (ht : o.type = .idle)
    (hmem : k ∉ L.objList) :
    ∃ st', aml_start now st lk k = some (0, st') ∧
      aml_is_started st' lk k = true ∧
      (findObj st' k).map (fun ob => ob.ref) = some (o.ref + 1) := by
  refine ⟨updateLoop lk (fun LL => { LL with idleList := k :: LL.idleList })
      (updateLoop lk (fun LL => { LL with objList := k :: LL.objList })
        (updateObj k (fun ob => { ob with ref := ob.ref + 1 }) st)), ?_, ?_, ?_⟩
  · simp [aml_start, aml__obj_try_add, hL, hmem, aml_ref, hk,
      aml__start_unchecked, findObj_updateObj_self, findObj_updateLoop, ht,
      aml__start_idle]
  · simp [aml_is_started, aml__obj_is_started_unlocked, findLoop_updateLoop,
      findLoop_updateObj, hL]
  · simp [findObj_updateLoop, findObj_updateObj_self, hk]

theorem loopBackend_updateObj (st : AmlState) (lk k : Nat) (f : Obj → Obj) :
    loopBackend (updateObj k f st) lk = loopBackend st lk := rfl

theorem loopBackend_updateLoop (st : AmlState) (lk lk' : Nat)
    (f : LoopState → LoopState)
    (hf : ∀ LL, (f LL).backend = LL.backend) :
    loopBackend (updateLoop lk f st) lk' = loopBackend st lk' := by
  simp only [loopBackend, findLoop_updateLoop]
  by_cases h : lk' = lk
  · subst h
    cases hL : findLoop st lk' <;> simp [hf]
  · simp [h]

theorem start_signal_fail_restores (now : Nat) (st : AmlState) (lk k : Nat)
    (o : Obj) (L : LoopState)
    (hL : findLoop st lk = some L)
    (hk : findObj st k = some o)
    (ht : o.type = .signal)
    (hflag : (loopBackend st lk).addSignalOk = false)
    (href : 1 ≤ o.ref) (hmem : k ∉ L.objList)
    (hnodupO : (st.objs.map Prod.fst).Nodup)
    (hnodupL : (st.loops.map Prod.fst).Nodup) :
    aml_start now st lk k = some (-1, st) := by
  have h0 : ¬ o.ref = 0 := by omega
  have hflag2 : (loopBackend (updateLoop lk
      (fun L => { L with objList := k :: L.objList })
      (updateObj k (fun ob => { ob with ref := ob.ref + 1 }) st)) lk).addSignalOk
      = false := by
    rw [loopBackend_updateLoop _ lk lk
      (fun L => { L with objList := k :: L.objList }) (fun LL => rfl),
      loopBackend_updateObj]
    exact hflag
  have hrestore : updateObj k (fun ob => { ob with ref := o.ref })
      (updateLoop lk (fun LL => { LL with objList := removeFirst k LL.objList })
        (updateLoop lk (fun LL => { LL with objList := k :: LL.objList })
          (updateObj k (fun ob => { ob with ref := ob.ref + 1 }) st))) = st := by
    rw [updateObj_updateLoop_comm, updateObj_updateLoop_comm]
    rw [updateObj_restore st k o hk hnodupO]
    rw [updateLoop_objList_restore st lk k L hL hnodupL]
  simp [aml_start, aml__obj_try_add, hL, hmem, aml_ref, hk,
    aml__start_unchecked, findObj_updateObj_self, findObj_updateLoop, ht,
    aml__start_signal, hflag2,
    aml__obj_remove, aml_unref_src, findObj_updateObj, h0]
  exact hrestore

theorem start_handler_fail_restores (now : Nat) (st : AmlState) (lk k : Nat)
    (o : Obj) (L : LoopState)
    (hL : findLoop st lk = some L)
    (hk : findObj st k = some o)
    (ht : o.type = .handler)
    (hflag : (loopBackend st lk).addFdOk = false)
    (href : 1 ≤ o.ref) (hmem : k ∉ L.objList)
    (hnodupO : (st.objs.map Prod.fst).Nodup)
    (hnodupL : (st.loops.map Prod.fst).Nodup) :
    aml_start now st lk k = some (-1, st) := by
  have h0 : ¬ o.ref = 0 := by omega
  have hflag2 : (loopBackend (updateLoop lk
      (fun L => { L with objList := k :: L.objList })
      (updateObj k (fun ob => { ob with ref := ob.ref + 1 }) st)) lk).addFdOk
      = false := by
    rw [loopBackend_updateLoop _ lk lk
      (fun L => { L with objList := k :: L.objList }) (fun LL => rfl),
      loopBackend_updateObj]
    exact hflag
  have hrestore : updateObj k (fun ob => { ob with ref := o.ref })
      (updateLoop lk (fun LL => { LL with objList := removeFirst k LL.objList })
        (updateLoop lk (fun LL => { LL with objList := k :: LL.objList })
          (updateObj k (fun ob => { ob with ref := ob.ref + 1 }) st))) = st := by
    rw [updateObj_updateLoop_comm, updateObj_updateLoop_comm]
    rw [updateObj_restore st k o hk hnodupO]
    rw [updateLoop_objList_restore st lk k L hL hnodupL]
  simp [aml_start, aml__obj_try_add, hL, hmem, aml_ref, hk,
    aml__start_unchecked, findObj_updateObj_self, findObj_updateLoop, ht,
    aml__start_handler, hflag2,
    aml__obj_remove, aml_unref_src, findObj_updateObj, h0]
  exact hrestore

theorem start_signal_ok (now : Nat) (st : AmlState) (lk k : Nat)
    (o : Obj) (L : LoopState)
    (hL : findLoop st lk = some L)
    (hk : findObj st k = some o)
    (ht : o.type = .signal)
    (hflag : (loopBackend st lk).addSignalOk = true)
    (hmem : k ∉ L.objList) :
    ∃ st', aml_start now st lk k = some (0, st') ∧
      aml_is_started st' lk k = true ∧
      (findObj st' k).map (fun ob => ob.ref) = some (o.ref + 1) := by
  have hflag2 : (loopBackend (updateLoop lk
      (fun L => { L with objList := k :: L.objList })
      (updateObj k (fun ob => { ob with ref := ob.ref + 1 }) st)) lk).addSignalOk
      = true := by
    rw [loopBackend_updateLoop _ lk lk
      (fun L => { L with objList := k :: L.objList }) (fun LL => rfl),
      loopBackend_updateObj]
    exact hflag
  refine ⟨updateLoop lk (fun LL => { LL with objList := k :: LL.objList })
        (updateObj k (fun ob => { ob with ref := ob.ref + 1 }) st), ?_, ?_, ?_⟩
  · simp [aml_start, aml__obj_try_add, hL, hmem, aml_ref, hk,
      aml__start_unchecked, findObj_updateObj_self, findObj_updateLoop, ht,
      aml__start_signal, hflag2]
  · simp [aml_is_started, aml__obj_is_started_unlocked, findLoop_updateLoop,
      findLoop_updateObj, hL]
  · simp [findObj_updateLoop, findObj_updateObj_self, hk]

theorem start_zero_timer (now : Nat) (st : AmlState) (lk k : Nat)
    (o : Obj) (L : LoopState)
    (hL : findLoop st lk = some L)
    (hk : findObj st k = some o)
    (ht : o.type = .timer) (hto : o.timeout = 0)
    (href : 1 ≤ o.ref) (hmem : k ∉ L.objList) :
    (aml_start now st lk k).map (fun p => (p.1, aml_is_started p.2 lk k,
        (findLoop p.2 lk).map (fun LL =>
          (LL.timerList, LL.eventQueue, LL.setDeadlines, LL.interrupts)),
        (findObj p.2 k).map (fun ob => (ob.ref, ob.deadline)))) =
      some (0, false,
        some (L.timerList, L.eventQueue ++ [k], L.setDeadlines, L.interrupts + 1),
        some (o.ref + 1, now % U64)) := by
  have h0 : ¬ o.ref = 0 := by omega
  simp [aml_start, aml__obj_try_add, hL, hmem, aml_ref, hk,
    aml__start_unchecked, findObj_updateObj_self, findObj_updateObj,
    findObj_updateLoop, findLoop_updateLoop, findLoop_updateObj, ht, hto,
    aml__start_timer, aml_stop, aml__obj_try_remove, aml__obj_remove,
    aml_unref_src, aml__stop_unchecked, aml__stop_timer, aml_emit,
    aml_interrupt, aml_is_started, aml__obj_is_started_unlocked,
    removeFirst, h0, hL]

theorem earliest_fold_keep (st : AmlState) (l : List Nat) (b : Nat)
    (r : Option Nat)
    (h : ∀ j ∈ l, ∀ oj, findObj st j = some oj → b ≤ oj.deadline) :
    l.foldl (fun acc k =>
      match findObj st k with
      | some o => if o.deadline < acc.1 then (o.deadline, some k) else acc
      | none => acc) (b, r) = (b, r) := by
  induction l with
  | nil => rfl
  | cons x t ih =>
    simp only [List.foldl_cons]
    rcases hx : findObj st x with _ | ox
    · simp only []
      exact ih (fun j hj => h j (List.mem_cons_of_mem _ hj))
    · have hbx : b ≤ ox.deadline := h x (List.mem_cons_self _ _) ox hx
      simp only [Nat.not_lt.mpr hbx, if_neg (Nat.not_lt.mpr hbx)]
      exact ih (fun j hj => h j (List.mem_cons_of_mem _ hj))

theorem earliest_fold_le (st : AmlState) (l : List Nat) (b : Nat)
    (r : Option Nat) :
    (l.foldl (fun acc k =>
      match findObj st k with
      | some o => if o.deadline < acc.1 then (o.deadline, some k) else acc
      | none => acc) (b, r)).1 ≤ b := by
  induction l generalizing b r with
  | nil => simp
  | cons x t ih =>
    simp only [List.foldl_cons]
    rcases hx : findObj st x with _ | ox
    · exact ih b r
    · by_cases hlt : ox.deadline < b
      · simp only [if_pos hlt]
        exact Nat.le_trans (ih _ _) (Nat.le_of_lt hlt)
      · simp only [if_neg hlt]
        exact ih b r

theorem earliest_fold_lt (st : AmlState) (l : List Nat) (b : Nat)
    (r : Option Nat) (j : Nat) (hj : j ∈ l) (oj : Obj)
    (hoj : findObj st j = some oj) (hlt : oj.deadline < b) :
    (l.foldl (fun acc k =>
      match findObj st k with
      | some o => if o.deadline < acc.1 then (o.deadline, some k) else acc
      | none => acc) (b, r)).1 < b := by
  induction l generalizing b r with
  | nil => cases hj
  | cons x t ih =>
    simp only [List.foldl_cons]
    rcases List.mem_cons.mp hj with hjx | hjt
    · subst hjx
      rw [hoj]
      simp only [if_pos hlt]
      exact Nat.lt_of_le_of_lt (earliest_fold_le st t _ _) hlt
    · rcases hx : findObj st x with _ | ox
      · exact ih b r hjt hlt
      · by_cases hxb : ox.deadline < b
        · simp only [if_pos hxb]
          exact Nat.lt_of_le_of_lt (earliest_fold_le st t _ _) hxb
        · simp only [if_neg hxb]
          exact ih b r hjt hlt

theorem earliest_fold_cases (st : AmlState) (l : List Nat) (b : Nat)
    (r : Option Nat) :
    l.foldl (fun acc k =>
      match findObj st k with
      | some o => if o.deadline < acc.1 then (o.deadline, some k) else acc
      | none => acc) (b, r) = (b, r) ∨
    ∃ j ∈ l, ∃ oj, findObj st j = some oj ∧
      (l.foldl (fun acc k =>
        match findObj st k with
        | some o => if o.deadline < acc.1 then (o.deadline, some k) else acc
        | none => acc) (b, r)) = (oj.deadline, some j) := by
  induction l generalizing b r with
  | nil => left; rfl
  | cons x t ih =>
    simp only [List.foldl_cons]
    rcases hx : findObj st x with _ | ox
    · rcases ih b r with h | ⟨j, hj, oj, hoj, hres⟩
      · left; exact h
      · right; exact ⟨j, List.mem_cons_of_mem _ hj, oj, hoj, hres⟩
    · by_cases hxb : ox.deadline < b
      · simp only [if_pos hxb]
        rcases ih ox.deadline (some x) with h | ⟨j, hj, oj, hoj, hres⟩
        · right; exact ⟨x, List.mem_cons_self _ _, ox, hx, h⟩
        · right; exact ⟨j, List.mem_cons_of_mem _ hj, oj, hoj, hres⟩
      · simp only [if_neg hxb]
        rcases ih b r with h | ⟨j, hj, oj, hoj, hres⟩
        · left; exact h
        · right; exact ⟨j, List.mem_cons_of_mem _ hj, oj, hoj, hres⟩

theorem start_timer_pos_pushes (now : Nat) (st : AmlState) (lk k : Nat)
    (o : Obj) (L : LoopState)
    (hL : findLoop st lk = some L)
    (hk : findObj st k = some o)
    (hto : ¬ o.timeout = 0)
    (hknot : k ∉ L.timerList)
    (hdl : (now + o.timeout) % U64 < U64 - 1)
    (hmin : ∀ j ∈ L.timerList, ∀ oj, findObj st j = some oj →
       (now + o.timeout) % U64 ≤ oj.deadline) :
    (aml__start_timer now st lk k).map (fun p => (p.1,
        (findLoop p.2 lk).map (fun LL => (LL.timerList, LL.setDeadlines)),
        (findObj p.2 k).map (fun ob => ob.deadline))) =
      some (0, some (k :: L.timerList,
          ((now + o.timeout) % U64) :: L.setDeadlines),
        some ((now + o.timeout) % U64)) := by
  set st4 : AmlState :=
    updateLoop lk (fun LL => { LL with timerList := k :: LL.timerList })
      (updateObj k (fun ob => { ob with deadline := (now + o.timeout) % U64 }) st)
    with hst4
  have hL4 : findLoop st4 lk = some { L with timerList := k :: L.timerList } := by
    rw [hst4, findLoop_updateLoop]
    simp [findLoop_updateObj, hL]
  have hk4 : findObj st4 k = some { o with deadline := (now + o.timeout) % U64 } := by
    rw [hst4, findObj_updateLoop, findObj_updateObj_self, hk]
    rfl
  have hearliest : aml__get_timer_with_earliest_deadline st4 lk = some k := by
    simp only [aml__get_timer_with_earliest_deadline, hL4]
    simp only [List.foldl_cons, hk4]
    rw [if_pos hdl]
    rw [earliest_fold_keep st4 L.timerList ((now + o.timeout) % U64) (some k) ?_]
    intro j hj oj hoj
    have hjk : j ≠ k := fun h => hknot (h ▸ hj)
    rw [hst4, findObj_updateLoop, findObj_updateObj_ne _ _ _ _ hjk] at hoj
    exact hmin j hj oj hoj
  simp [aml__start_timer, hk, hto, hst4.symm, hearliest, aml__set_deadline,
    findLoop_updateLoop, findLoop_updateObj, findObj_updateLoop,
    findObj_updateObj_self, hL, hL4, hk4]

theorem start_timer_pos_no_push (now : Nat) (st : AmlState) (lk k : Nat)
    (o : Obj) (L : LoopState) (j : Nat) (oj : Obj)
    (hL : findLoop st lk = some L)
    (hk : findObj st k = some o)
    (hto : ¬ o.timeout = 0)
    (hknot : k ∉ L.timerList)
    (hj : j ∈ L.timerList) (hoj : findObj st j = some oj)
    (hjlt : oj.deadline < (now + o.timeout) % U64) :
    (aml__start_timer now st lk k).map (fun p => (p.1,
        (findLoop p.2 lk).map (fun LL => (LL.timerList, LL.setDeadlines)),
        (findObj p.2 k).map (fun ob => ob.deadline))) =
      some (0, some (k :: L.timerList, L.setDeadlines),
        some ((now + o.timeout) % U64)) := by
  set st4 : AmlState :=
    updateLoop lk (fun LL => { LL with timerList := k :: LL.timerList })
      (updateObj k (fun ob => { ob with deadline := (now + o.timeout) % U64 }) st)
    with hst4
  have hL4 : findLoop st4 lk = some { L with timerList := k :: L.timerList } := by
    rw [hst4, findLoop_updateLoop]
    simp [findLoop_updateObj, hL]
  have hk4 : findObj st4 k = some { o with deadline := (now + o.timeout) % U64 } := by
    rw [hst4, findObj_updateLoop, findObj_updateObj_self, hk]
    rfl
  have hoj4 : findObj st4 j = some oj := by
    have hjk : j ≠ k := fun h => hknot (h ▸ hj)
    rw [hst4, findObj_updateLoop, findObj_updateObj_ne _ _ _ _ hjk]
    exact hoj
  have hearliest : ∀ r, aml__get_timer_with_earliest_deadline st4 lk = r →
      r ≠ some k := by
    intro r hr
    subst hr
    simp only [aml__get_timer_with_earliest_deadline, hL4]
    simp only [List.foldl_cons, hk4]
    by_cases hdl : (now + o.timeout) % U64 < U64 - 1
    · rw [if_pos hdl]
      have hlt := earliest_fold_lt st4 L.timerList ((now + o.timeout) % U64)
        (some k) j hj oj hoj4 hjlt
      rcases earliest_fold_cases st4 L.timerList ((now + o.timeout) % U64)
          (some k) with hcase | ⟨j', hj', oj', hoj', hres⟩
      · rw [hcase] at hlt ⊢
        exact absurd hlt (by omega)
      · rw [hres]
        intro hcontra
        simp at hcontra
        exact hknot (hcontra ▸ hj')
    · rw [if_neg hdl]
      rcases earliest_fold_cases st4 L.timerList (U64 - 1)
          none with hcase | ⟨j', hj', oj', hoj', hres⟩
      · rw [hcase]
        simp
      · rw [hres]
        intro hcontra
        simp at hcontra
        exact hknot (hcontra ▸ hj')
  have hne := hearliest _ rfl
  simp [aml__start_timer, hk, hto, hst4.symm, hne, aml__set_deadline,
    findLoop_updateLoop, findLoop_updateObj, findObj_updateLoop,
    findObj_updateObj_self, hL, hL4, hk4]

theorem findObj_setGlobal (st : AmlState) (g : List Nat) (k : Nat) :
    findObj { st with globalList := g } k = findObj st k := rfl

theorem findLoop_setGlobal (st : AmlState) (g : List Nat) (lk : Nat) :
    findLoop { st with globalList := g } lk = findLoop st lk := rfl

theorem findLoop_removeObj (st : AmlState) (k lk : Nat) :
    findLoop (removeObj k st) lk = findLoop st lk := rfl

theorem loopBackend_setInvoked (st : AmlState) (l : List Nat) (lk : Nat) :
    loopBackend { st with invoked := l } lk = loopBackend st lk := rfl

theorem loopBackend_setGlobal (st : AmlState) (g : List Nat) (lk : Nat) :
    loopBackend { st with globalList := g } lk = loopBackend st lk := rfl

theorem globalList_updateObj (st : AmlState) (k : Nat) (f : Obj → Obj) :
    (updateObj k f st).globalList = st.globalList := rfl

theorem globalList_updateLoop (st : AmlState) (lk : Nat)
    (f : LoopState → LoopState) :
    (updateLoop lk f st).globalList = st.globalList := rfl

theorem findObj_mk (objs : List (Nat × Obj)) (loops : List (Nat × LoopState))
    (g : List Nat) (ni nk : Nat) (inv : List Nat) (fl : List (Nat × Nat))
    (k : Nat) :
    findObj (AmlState.mk objs loops g ni nk inv fl) k = assocFind objs k := rfl

theorem findLoop_mk (objs : List (Nat × Obj)) (loops : List (Nat × LoopState))
    (g : List Nat) (ni nk : Nat) (inv : List Nat) (fl : List (Nat × Nat))
    (lk : Nat) :
    findLoop (AmlState.mk objs loops g ni nk inv fl) lk = assocFind loops lk := rfl

theorem loopBackend_mk (objs : List (Nat × Obj))
    (loops : List (Nat × LoopState)) (g : List Nat) (ni nk : Nat)
    (inv : List Nat) (fl : List (Nat × Nat)) (lk : Nat) :
    loopBackend (AmlState.mk objs loops g ni nk inv fl) lk =
      ((assocFind loops lk).map (fun L => L.backend)).getD {} := rfl

theorem objs_updateObj (st : AmlState) (k : Nat) (f : Obj → Obj) :
    (updateObj k f st).objs = assocUpdate st.objs k f := rfl

theorem objs_updateLoop (st : AmlState) (lk : Nat)
    (f : LoopState → LoopState) :
    (updateLoop lk f st).objs = st.objs := rfl

theorem loops_updateObj (st : AmlState) (k : Nat) (f : Obj → Obj) :
    (updateObj k f st).loops = st.loops := rfl

theorem loops_updateLoop (st : AmlState) (lk : Nat)
    (f : LoopState → LoopState) :
    (updateLoop lk f st).loops = assocUpdate st.loops lk f := rfl

theorem findObj_eq_assocFind (st : AmlState) (k : Nat) :
    findObj st k = assocFind st.objs k := rfl

theorem findLoop_eq_assocFind (st : AmlState) (lk : Nat) :
    findLoop st lk = assocFind st.loops lk := rfl

theorem loopBackend_eq (st : AmlState) (lk : Nat) :
    loopBackend st lk =
      ((assocFind st.loops lk).map (fun L => L.backend)).getD {} := rfl

theorem emit_handler_pending (st : AmlState) (lk k : Nat) (o : Obj)
    (L : LoopState) (bits : Nat)
    (hL : findLoop st lk = some L)
    (hk : findObj st k = some o)
    (ht : o.type = .handler) (hrev : o.revents ≠ 0) :
    aml_emit st lk k bits = some (updateObj k
      (fun ob => { ob with revents := o.revents ||| bits % U32 }) st) := by
  simp [aml_emit, hk, hL, ht, hrev]

theorem emit_handler_fresh (st : AmlState) (lk k : Nat) (o : Obj)
    (L : LoopState) (bits : Nat)
    (hL : findLoop st lk = some L)
    (hk : findObj st k = some o)
    (ht : o.type = .handler) (hrev : o.revents = 0) :
    (aml_emit st lk k bits).map (fun st' =>
        ((findLoop st' lk).map (fun LL => LL.eventQueue),
         (findObj st' k).map (fun ob => (ob.ref, ob.revents)))) =
      some (some (L.eventQueue ++ [k]), some (o.ref + 1, bits % U32)) := by
  simp [aml_emit, hk, hL, ht, hrev, aml_ref, findObj_updateObj_self,
    findObj_updateObj, findObj_updateLoop, findLoop_updateLoop,
    findLoop_updateObj]

theorem emit_nonhandler (st : AmlState) (lk k : Nat) (o : Obj)
    (L : LoopState) (bits : Nat)
    (hL : findLoop st lk = some L)
    (hk : findObj st k = some o)
    (ht : o.type ≠ .handler) :
    (aml_emit st lk k bits).map (fun st' =>
        ((findLoop st' lk).map (fun LL => LL.eventQueue),
         (findObj st' k).map (fun ob => ob.ref))) =
      some (some (L.eventQueue ++ [k]), some (o.ref + 1)) := by
  simp [aml_emit, hk, hL, ht, aml_ref, findObj_updateObj_self,
    findObj_updateLoop, findLoop_updateLoop, findLoop_updateObj]

theorem or_ne_zero_left (a b : Nat) (ha : a ≠ 0) : a ||| b ≠ 0 := by
  intro h
  apply ha
  apply Nat.eq_of_testBit_eq
  intro i
  have h2 := congrArg (fun x => x.testBit i) h
  simp at h2
  simp [h2.1]

theorem emit_preserves_handler_inv (st : AmlState) (lk k : Nat) (o : Obj)
    (bits : Nat)
    (hk : findObj st k = some o)
    (ht : o.type = .handler) (hbits : bits % U32 ≠ 0)
    (hinv : HandlerQueueInv st lk k) :
    ∀ st', aml_emit st lk k bits = some st' → HandlerQueueInv st' lk k := by
  intro st' hemit
  rcases hL : findLoop st lk with _ | L
  · simp [aml_emit, hk, hL] at hemit
  · by_cases hrev : o.revents = 0
    · have hknot : k ∉ L.eventQueue := by
        intro hmem
        exact ((hinv L hL).2 hmem o hk) hrev
      simp [aml_emit, hk, hL, ht, hrev, aml_ref, findObj_updateObj_self,
        findObj_updateObj, findObj_updateLoop] at hemit
      subst hemit
      intro L' hL'
      simp [findLoop_updateObj, findLoop_updateLoop, hL] at hL'
      subst hL'
      refine ⟨?_, ?_⟩
      · rw [List.count_append]
        have h0 : L.eventQueue.count k = 0 :=
          List.count_eq_zero_of_not_mem hknot
        simp [h0]
      · intro _ ob hob
        simp [findObj_updateObj_self, findObj_updateLoop,
          findObj_updateObj, hk] at hob
        subst hob
        simpa [hrev] using hbits
    · simp [aml_emit, hk, hL, ht, hrev] at hemit
      subst hemit
      intro L' hL'
      rw [findLoop_updateObj] at hL'
      rw [hL] at hL'
      cases hL'
      refine ⟨(hinv L hL).1, ?_⟩
      intro hmem ob hob
      rw [findObj_updateObj_self, hk] at hob
      simp at hob
      subst hob
      exact or_ne_zero_left o.revents (bits % U32) hrev

theorem createTimers_ids (n : Nat) : ∀ (st : AmlState),
    st.nextId + n ≤ U64 →
    (∀ p ∈ st.objs, p.1 < st.nextKey) →
    (createTimers n st).objs.map (fun p => p.2.id) =
      st.objs.map (fun p => p.2.id) ++ List.range' st.nextId n := by
  induction n with
  | zero => intro st _ _; simp [createTimers]
  | succ n ih =>
    intro st hid hkeys
    have hstep : createTimers (n + 1) st =
        createTimers n (aml__obj_global_ref st.nextKey
          { st with nextKey := st.nextKey + 1,
                    objs := st.objs ++ [(st.nextKey,
                      { type := .timer, ref := 1, hasCb := false,
                        timeout := 1 % U32 })] }) := by
      simp [createTimers, aml_timer_new]
    set o0 : Obj := { type := .timer, ref := 1, hasCb := false,
                      timeout := 1 % U32 } with ho0
    have hupd : assocUpdate (st.objs ++ [(st.nextKey, o0)]) st.nextKey
        (fun ob => { ob with id := st.nextId }) =
        st.objs ++ [(st.nextKey, { o0 with id := st.nextId })] := by
      apply assocUpdate_append_fresh
      intro p hp
      exact Nat.ne_of_lt (hkeys p hp)
    set st' : AmlState := aml__obj_global_ref st.nextKey
      { st with nextKey := st.nextKey + 1,
                objs := st.objs ++ [(st.nextKey, o0)] } with hst'
    have hobjs : st'.objs = st.objs ++ [(st.nextKey, { o0 with id := st.nextId })] := by
      rw [hst']
      show assocUpdate (st.objs ++ [(st.nextKey, o0)]) st.nextKey
        (fun ob => { ob with id := st.nextId }) = _
      exact hupd
    have hnid : st'.nextId = (st.nextId + 1) % U64 := rfl
    have hnk : st'.nextKey = st.nextKey + 1 := rfl
    have hkeys' : ∀ p ∈ st'.objs, p.1 < st'.nextKey := by
      rw [hobjs, hnk]
      intro p hp
      rcases List.mem_append.mp hp with h | h
      · exact Nat.lt_succ_of_lt (hkeys p h)
      · simp at h
        subst h
        exact Nat.lt_succ_self _
    rw [hstep]
    by_cases hlt : st.nextId + 1 < U64
    · have hmod : (st.nextId + 1) % U64 = st.nextId + 1 := Nat.mod_eq_of_lt hlt
      have hres := ih st' (by rw [hnid, hmod]; omega) hkeys'
      rw [hres, hobjs, hnid, hmod]
      simp [List.range'_succ]
    · have hn0 : n = 0 := by omega
      subst hn0
      simp [createTimers, hobjs, List.range'_succ]

end Aml

namespace Aml

/-!
Claim C9.
-/

/-- C9: allocation failure in a typed factory.  For aml_handler_new,
aml_timer_new, aml_signal_new, aml_work_new and aml_idle_new the claim holds:
a failing calloc is surfaced as a NULL return with no other effect on the
state.  For aml_ticker_new the code instead dereferences the NULL result of
the inner aml_timer_new call (timer->obj.type = AML_OBJ_TICKER), which is a
crash, not a NULL return: the claim fails on that factory. -/
theorem C9_alloc_failure (fd signo : Int) (t p : Nat) (cb : Bool)
    (st : AmlState) :
    aml_handler_new false fd cb st = .fail st ∧
    aml_timer_new false t cb st = .fail st ∧
    aml_signal_new false signo cb st = .fail st ∧
    aml_work_new false cb st = .fail st ∧
    aml_idle_new false cb st = .fail st ∧
    aml_ticker_new false p cb st = .crash := by
  refine ⟨rfl, rfl, rfl, rfl, rfl, rfl⟩

/-!
Claim C7.
-/

/-- C7 counterexample: id 0 is not reserved.  The very first object created
in a fresh process (the global counter aml__obj_id starts at 0) is assigned
id 0, contradicting the claim that 0 is never assigned to a source. -/
theorem C7_counterexample : firstAssignedId = some 0 := rfl

/-!
Claim C1 counterexample.
-/

/-- C1 counterexample: a started signal source (key 1) is emitted (enqueued),
then aml_stop returns 0 and the source is no longer started; yet the next
aml_dispatch, with no intervening emit, still invokes its dispatch callback
(the ghost invoked log of the dispatch result is [1]).  aml_stop does not
remove an already-queued source from the event queue. -/
theorem C1_counterexample :
    aml_emit sigStartedState 0 1 0 = some sigQueuedState ∧
    aml_stop sigQueuedState 0 1 = some (0, sigStoppedState) ∧
    aml_is_started sigStoppedState 0 1 = false ∧
    (aml_dispatch noopEnv 1 10 100 sigStoppedState 0).map
      (fun st => st.invoked) = some [1] := by
  refine ⟨by decide, by decide, by decide, by decide⟩

/-!
Claim C2 counterexample.
-/

/-- C2 counterexample: emitting a started (non-fd) signal source twice while
it is already queued enqueues it a second time: the event queue afterwards is
[1, 1], so the source occupies the queue twice at once and the second emit
was not a no-op (the reference count rose to 4). -/
theorem C2_counterexample :
    ((aml_emit sigStartedState 0 1 0).bind
        (fun st => aml_emit st 0 1 0)).map
      (fun st => ((findLoop st 0).map (fun L => L.eventQueue),
                  (findObj st 1).map (fun o => o.ref))) =
      some (some [1, 1], some 4) := by decide

/-!
Claim C3 counterexample.
-/

/-- C3 counterexample: an idle source started on loop 0 can be started on
loop 1 as well — aml_start only checks the target loop's own started list,
so the second start also returns 0 and the source ends up in the started
lists of both loops, contradicting the claim that a start fails when the
source is in any loop's started list. -/
theorem C3_counterexample :
    ((aml_start 0 twoLoopState 0 2).bind
        (fun p => aml_start 0 p.2 1 2)).map
      (fun p => (p.1,
        (findLoop p.2 0).map (fun L => L.objList),
        (findLoop p.2 1).map (fun L => L.objList))) =
      some (0, some [2], some [2]) := by decide

/-!
Claim C8 counterexample.
-/

/-- C8 counterexample: stopping the Loop object through the generic stop
entry point does not abort; aml_stop takes a temporary reference, finds the
loop absent from its own started list, skips the kind-specific stop action
and returns 0 with the state unchanged. -/
theorem C8_counterexample : aml_stop baseState 0 0 = some (0, baseState) := by
  decide

/-!
Claim C6.
-/

/-- C6: aml_try_ref(id) returns the registered source with its reference
count incremented by one when a source with that id is on the global
registry list, and returns NULL when it is not; and aml_unref removes the
registry entry in the same critical section in which the reference count
reaches zero, so after the drop to zero an upgrade of that id returns NULL
(never the finalized object). -/
theorem C6_try_ref_upgrade (st : AmlState) (id k : Nat) (o : Obj)
    (hk : findObj st k = some o) (hid : o.id = id)
    (href : o.ref = 1)
    (htA : o.type ≠ .aml) (htU : o.type ≠ .unspec)
    (hcount : st.globalList.count k ≤ 1)
    (huni : ∀ k', k' ∈ st.globalList → k' ≠ k → hasIdB st k' id = false) :
    (k ∈ st.globalList →
       ∃ st', aml_try_ref id st = (some k, st') ∧
         findObj st' k = some { o with ref := o.ref + 1 }) ∧
    (k ∉ st.globalList → aml_try_ref id st = (none, st)) ∧
    (∃ st', aml_unref k st = some (0, st') ∧ k ∉ st'.globalList ∧
       findObj st' k = none ∧ (aml_try_ref id st').1 = none) := by
  refine ⟨?_, ?_, ?_⟩
  · intro hmem
    have hfind : st.globalList.find? (fun k' =>
        match findObj st k' with
        | some o' => o'.id = id
        | none => false) = some k := by
      apply find?_eq_some_of_first
      · exact hmem
      · simp [hk, hid]
      · intro b hb hpb
        by_contra hbk
        rcases hb' : findObj st b with _ | ob
        · simp [hb'] at hpb
        · simp [hb'] at hpb
          exact hasIdB_false st b id ob (huni b hb hbk) hb' hpb
    refine ⟨updateObj k (fun ob => { ob with ref := ob.ref + 1 }) st, ?_, ?_⟩
    · simp [aml_try_ref, hfind]
    · simp [findObj_updateObj_self, hk]
  · intro hmem
    have hfind : st.globalList.find? (fun k' =>
        match findObj st k' with
        | some o' => o'.id = id
        | none => false) = none := by
      rw [List.find?_eq_none]
      intro b hb
      by_cases hbk : b = k
      · subst hbk; exact absurd hb hmem
      · rcases hb' : findObj st b with _ | ob
        · simp [hb']
        · simp [hb']
          exact hasIdB_false st b id ob (huni b hb hbk) hb'
    simp [aml_try_ref, hfind]
  · have hun := aml_unref_to_zero st k o hk href htA htU
    set st' : AmlState := removeObj k
      { updateObj k (fun ob => { ob with ref := o.ref - 1 }) st with
        globalList := removeFirst k st.globalList } with hst'
    have hglobal : st'.globalList = removeFirst k st.globalList := rfl
    have hnotmem : k ∉ st'.globalList := by
      rw [hglobal, removeFirst_eq_erase]
      intro hmem
      have hc := List.count_pos_iff.mpr hmem
      rw [List.count_erase_self] at hc
      omega
    have hfindnone : findObj st' k = none := by
      rw [hst']
      rw [findObj_removeObj]
      simp
    refine ⟨st', hun, hnotmem, hfindnone, ?_⟩
    have hfind : st'.globalList.find? (fun k' =>
        match findObj st' k' with
        | some o' => o'.id = id
        | none => false) = none := by
      rw [List.find?_eq_none]
      intro b hb
      have hbk : b ≠ k := fun h => hnotmem (h ▸ hb)
      have hbmem : b ∈ st.globalList := by
        rw [hglobal, removeFirst_eq_erase] at hb
        exact List.mem_of_mem_erase hb
      have hfb : findObj st' b = findObj st b := by
        rw [hst']
        rw [findObj_removeObj]
        rw [if_neg hbk]
        show findObj (updateObj k (fun ob => { ob with ref := o.ref - 1 }) st) b
          = findObj st b
        exact findObj_updateObj_ne st k b _ hbk
      rcases hb' : findObj st b with _ | ob
      · simp [hfb, hb']
      · simp [hfb, hb']
        exact hasIdB_false st b id ob (huni b hbmem hbk) hb'
    simp [aml_try_ref, hfind]

/-- C6 witness: in the state with one freshly created signal source (key 1,
id 1, ref 1), aml_try_ref(1) finds it. -/
theorem C6_try_ref_upgrade_witness :
    (aml_try_ref 1 sigNewState).1 = some 1 := by
  obtain ⟨h1, _, _⟩ := C6_try_ref_upgrade sigNewState 1 1
    { type := .signal, ref := 1, id := 1, hasCb := true, signo := 2 }
    (by decide) (by decide) (by decide) (by decide) (by decide) (by decide)
    (by decide)
  obtain ⟨st', heq, _⟩ := h1 (by decide)
  simp [heq]

/-!
Claim C7 amended.
-/

/-- C7 amended: ids are assigned by the monotonically increasing process
counter aml__obj_id starting at 0 (not 1): in a run of n creations with
n at most 2^64, the assigned ids are exactly 0, 1, ..., n-1 in creation
order — pairwise distinct, strictly increasing, never reused — and id 0 is
the first assigned id rather than a reserved "no id" value. -/
theorem C7_id_assignment_amended (n : Nat) (h : n ≤ U64) :
    (createTimers n {}).objs.map (fun p => p.2.id) = List.range n ∧
    ((createTimers n {}).objs.map (fun p => p.2.id)).Nodup ∧
    List.Pairwise (· < ·) ((createTimers n {}).objs.map (fun p => p.2.id)) := by
  have hids := createTimers_ids n {} (by simpa using h) (by intro p hp; cases hp)
  rw [← List.range_eq_range'] at hids
  simp only [List.map_nil, List.nil_append] at hids
  refine ⟨hids, ?_, ?_⟩
  · rw [hids]; exact List.nodup_range n
  · rw [hids]; exact List.pairwise_lt_range n

/-- C7 witness: three creations from a fresh process assign ids 0, 1, 2. -/
theorem C7_id_assignment_amended_witness :
    (createTimers 3 {}).objs.map (fun p => p.2.id) = [0, 1, 2] := by
  have h := (C7_id_assignment_amended 3 (by norm_num [U64])).1
  rw [h]
  decide

/-!
Claim C8 amended.
-/

/-- C8 amended: of the three claimed abort cases only one holds.  Starting a
Ticker with zero duration aborts (the assert in aml__start_timer), and so
does starting, or stopping while started, a source whose tag is Unspec (the
default branches of aml__start_unchecked / aml__stop_unchecked).  But
dispatching a source whose tag is Unspec does not abort — aml__handle_event
has no tag check and simply invokes the callback — and stopping the Loop
object through the generic aml_stop is a benign no-op that returns 0 with
the state unchanged (aml__stop_unchecked would return -1 for AML_OBJ_AML,
and is not even reached because the loop is never in its own started
list). -/
theorem C8_aborts_amended (now : Nat) (st : AmlState) (lk k : Nat)
    (o : Obj) (L : LoopState)
    (hL : findLoop st lk = some L)
    (hk : findObj st k = some o) :
    (o.type = .ticker → o.timeout = 0 → k ∉ L.objList →
       aml_start now st lk k = none) ∧
    (o.type = .unspec → k ∉ L.objList → aml_start now st lk k = none) ∧
    (o.type = .unspec → k ∈ L.objList → aml_stop st lk k = none) ∧
    (o.type = .unspec → o.hasCb = true → 1 ≤ o.ref →
       ∃ st', aml__handle_event noopEnv st lk k = some st' ∧
         st'.invoked = st.invoked ++ [k]) ∧
    (o.type = .aml → k = lk → 1 ≤ o.ref → lk ∉ L.objList →
       (st.objs.map Prod.fst).Nodup → aml_stop st lk k = some (0, st)) := by
  refine ⟨?_, ?_, ?_, ?_, ?_⟩
  · intro ht hto hmem
    exact start_zero_ticker_aborts now st lk k o L hL hk ht hto hmem
  · intro ht hmem
    exact start_unspec_aborts now st lk k o L hL hk ht hmem
  · intro ht hmem
    exact stop_started_unspec_aborts st lk k o L hL hk ht hmem
  · intro ht hcb href
    exact handle_event_unspec_no_abort st lk k o hk ht hcb href
  · intro ht hkl href hmem hnodup
    subst hkl
    exact stop_loop_benign st k o L hL hk ht href hmem hnodup

/-- C8 witness: in the state whose event queue holds an Unspec-tagged object
(key 5), dispatching that object invokes its callback instead of aborting. -/
theorem C8_aborts_amended_witness :
    (aml__handle_event noopEnv unspecState 0 5).map
      (fun st => st.invoked) = some [5] := by
  obtain ⟨_, _, _, hd, _⟩ := C8_aborts_amended 0 unspecState 0 5
    { type := .unspec, ref := 2, id := 7, hasCb := true }
    { eventQueue := [5] } (by decide) (by decide)
  obtain ⟨st', heq, hinv⟩ := hd (by decide) (by decide) (by decide)
  rw [heq]
  simp [hinv]
  decide

/-!
Claim C3 amended.
-/

/-- C3 amended: aml_start(loop, src) fails with -1 leaving the state
unchanged exactly when src is already in THIS loop's started list (other
loops' lists are not consulted — see the counterexample); otherwise it
inserts src at the head of this loop's started list adding exactly one
reference held by the loop and invokes the kind-specific start action
(conjuncts for an idle, which cannot fail, and a signal on a backend that
accepts the registration); and when the start action fails (a signal or fd
handler whose backend registration is rejected) the insertion is reversed —
started list, reference count and the whole state restored exactly — and -1
is returned. -/
theorem C3_start_amended (now : Nat) (st : AmlState) (lk k : Nat)
    (o : Obj) (L : LoopState)
    (hL : findLoop st lk = some L)
    (hk : findObj st k = some o) :
    (k ∈ L.objList → aml_start now st lk k = some (-1, st)) ∧
    (k ∉ L.objList → o.type = .idle →
       ∃ st', aml_start now st lk k = some (0, st') ∧
         aml_is_started st' lk k = true ∧
         (findObj st' k).map (fun ob => ob.ref) = some (o.ref + 1)) ∧
    (k ∉ L.objList → o.type = .signal →
       (loopBackend st lk).addSignalOk = true →
       ∃ st', aml_start now st lk k = some (0, st') ∧
         aml_is_started st' lk k = true ∧
         (findObj st' k).map (fun ob => ob.ref) = some (o.ref + 1)) ∧
    (k ∉ L.objList → o.type = .signal →
       (loopBackend st lk).addSignalOk = false → 1 ≤ o.ref →
       (st.objs.map Prod.fst).Nodup → (st.loops.map Prod.fst).Nodup →
       aml_start now st lk k = some (-1, st)) ∧
    (k ∉ L.objList → o.type = .handler →
       (loopBackend st lk).addFdOk = false → 1 ≤ o.ref →
       (st.objs.map Prod.fst).Nodup → (st.loops.map Prod.fst).Nodup →
       aml_start now st lk k = some (-1, st)) := by
  refine ⟨?_, ?_, ?_, ?_, ?_⟩
  · intro hmem
    exact start_already_started now st lk k L hL hmem
  · intro hmem ht
    exact start_idle_ok now st lk k o L hL hk ht hmem
  · intro hmem ht hflag
    exact start_signal_ok now st lk k o L hL hk ht hflag hmem
  · intro hmem ht hflag href hnO hnL
    exact start_signal_fail_restores now st lk k o L hL hk ht hflag href hmem hnO hnL
  · intro hmem ht hflag href hnO hnL
    exact start_handler_fail_restores now st lk k o L hL hk ht hflag href hmem hnO hnL

/-- C3 witness: starting the unstarted idle source (key 2) on loop 0 of the
two-loop fixture succeeds with return value 0. -/
theorem C3_start_amended_witness :
    (aml_start 0 twoLoopState 0 2).map (fun p => p.1) = some 0 := by
  obtain ⟨_, h2, _, _, _⟩ := C3_start_amended 0 twoLoopState 0 2
    { type := .idle, ref := 1, id := 2, hasCb := true } {} (by decide) (by decide)
  obtain ⟨st', heq, _⟩ := h2 (by decide) (by decide)
  simp [heq]

/-!
Claim C5.
-/

/-- C5: starting a Timer or Ticker computes deadline = (now + duration) mod
2^64 and inserts it at the head of the loop's timer list.  A Timer with
duration 0 is immediately stopped and emitted — afterwards it is neither
started nor armed, it occupies the event queue exactly once (so it fires
exactly once on the next dispatch), the loop was interrupted, and no
deadline was pushed.  For a positive duration, after the insertion the new
deadline is pushed to the backend via set_deadline exactly when the
earliest-deadline scan selects the new timer: it is pushed when the new
deadline is below UINT64_MAX and no armed timer has a strictly smaller
deadline (second conjunct), and it is not pushed when some armed timer has
a strictly smaller deadline (third conjunct). -/
theorem C5_start_timer (now : Nat) (st : AmlState) (lk k : Nat)
    (o : Obj) (L : LoopState)
    (hL : findLoop st lk = some L)
    (hk : findObj st k = some o) :
    (o.type = .timer → o.timeout = 0 → 1 ≤ o.ref → k ∉ L.objList →
       (aml_start now st lk k).map (fun p => (p.1, aml_is_started p.2 lk k,
           (findLoop p.2 lk).map (fun LL =>
             (LL.timerList, LL.eventQueue, LL.setDeadlines, LL.interrupts)),
           (findObj p.2 k).map (fun ob => (ob.ref, ob.deadline)))) =
         some (0, false,
           some (L.timerList, L.eventQueue ++ [k], L.setDeadlines,
             L.interrupts + 1),
           some (o.ref + 1, now % U64))) ∧
    (¬ o.timeout = 0 → k ∉ L.timerList →
       (now + o.timeout) % U64 < U64 - 1 →
       (∀ j ∈ L.timerList, ∀ oj, findObj st j = some oj →
          (now + o.timeout) % U64 ≤ oj.deadline) →
       (aml__start_timer now st lk k).map (fun p => (p.1,
           (findLoop p.2 lk).map (fun LL => (LL.timerList, LL.setDeadlines)),
           (findObj p.2 k).map (fun ob => ob.deadline))) =
         some (0, some (k :: L.timerList,
             ((now + o.timeout) % U64) :: L.setDeadlines),
           some ((now + o.timeout) % U64))) ∧
    (¬ o.timeout = 0 → k ∉ L.timerList →
       ∀ j ∈ L.timerList, ∀ oj, findObj st j = some oj →
       oj.deadline < (now + o.timeout) % U64 →
       (aml__start_timer now st lk k).map (fun p => (p.1,
           (findLoop p.2 lk).map (fun LL => (LL.timerList, LL.setDeadlines)),
           (findObj p.2 k).map (fun ob => ob.deadline))) =
         some (0, some (k :: L.timerList, L.setDeadlines),
           some ((now + o.timeout) % U64))) := by
  refine ⟨?_, ?_, ?_⟩
  · intro ht hto href hmem
    exact start_zero_timer now st lk k o L hL hk ht hto href hmem
  · intro hto hknot hdl hmin
    exact start_timer_pos_pushes now st lk k o L hL hk hto hknot hdl hmin
  · intro hto hknot j hj oj hoj hjlt
    exact start_timer_pos_no_push now st lk k o L j oj hL hk hto hknot hj hoj hjlt

/-- C5 witness: starting the zero-duration timer of the fixture stops it,
queues it once, bumps the interrupt count and pushes no deadline. -/
theorem C5_start_timer_witness :
    (aml_start 100 timerZeroState 0 1).map (fun p =>
        (p.1, aml_is_started p.2 0 1,
         (findLoop p.2 0).map (fun LL =>
           (LL.timerList, LL.eventQueue, LL.setDeadlines, LL.interrupts)),
         (findObj p.2 1).map (fun ob => (ob.ref, ob.deadline)))) =
      some (0, false, some ([], [1], [], 1), some (2, 100 % U64)) := by
  have h := (C5_start_timer 100 timerZeroState 0 1
    { type := .timer, ref := 1, id := 1, hasCb := true, timeout := 0 } {}
    (by decide) (by decide)).1 rfl rfl (by decide) (by decide)
  simpa using h

/-!
Claim C10.
-/

/-- C10: while the dispatcher runs a dequeued source's callback,
aml__handle_event holds an additional reference of its own beyond the one
taken at enqueue time.  For a started fd handler (creation + loop + queue
reference, so ref = 3) whose callback stops the source and drops the user
reference (stopUnrefEnv), handle_event completes without touching freed
memory: after it the object is still live with exactly the enqueue
reference left (ref = 1), its pending mask has been cleared and, the
backend being edge-triggered, mod_fd was issued — i.e. the post-callback
bookkeeping ran on a live object — and only the dispatcher's own release of
the enqueue reference afterwards drops the count to zero and finalizes the
object. -/
theorem C10_dispatch_holds_ref (st : AmlState) (lk k : Nat) (o : Obj) (L : LoopState)
    (hL : findLoop st lk = some L)
    (hk : findObj st k = some o)
    (ht : o.type = .handler)
    (href : o.ref = 3)
    (hcb : o.hasCb = true)
    (hmem : k ∈ L.objList)
    (hedge : (loopBackend st lk).edgeTriggered = true)
    (hdel : (loopBackend st lk).delFdOk = true)
    (hcount : L.objList.count k ≤ 1) :
    ∃ st1, aml__handle_event (stopUnrefEnv lk) st lk k = some st1 ∧
      (findObj st1 k).map (fun ob => (ob.ref, ob.revents)) = some (1, 0) ∧
      aml_is_started st1 lk k = false ∧
      (findLoop st1 lk).map (fun LL => LL.modFdLog) = some (k :: L.modFdLog) ∧
      (∃ st2, aml_unref_src k st1 = some (0, st2) ∧ findObj st2 k = none) := by
  have hkA : assocFind st.objs k = some o := hk
  have hLA : assocFind st.loops lk = some L := hL
  have hedgeL : L.backend.edgeTriggered = true := by
    rw [loopBackend_eq, hLA] at hedge
    simpa using hedge
  have hdelL : L.backend.delFdOk = true := by
    rw [loopBackend_eq, hLA] at hdel
    simpa using hdel
  simp [aml__handle_event, aml_ref, stopUnrefEnv, aml_stop,
    aml__obj_try_remove, aml__obj_remove, aml__stop_unchecked,
    aml__stop_handler, aml_unref, aml_unref_src, aml__free_src_obj,
    aml_is_started, aml__obj_is_started_unlocked, aml__mod_fd,
    findObj_mk, findLoop_mk, loopBackend_mk, objs_updateObj, objs_updateLoop,
    loops_updateObj, loops_updateLoop, invoked_updateObj, invoked_updateLoop,
    globalList_updateObj, globalList_updateLoop,
    findObj_eq_assocFind, findLoop_eq_assocFind, loopBackend_eq,
    assocFind_assocUpdate, updateObj, updateLoop, removeObj,
    assocFind_assocRemove,
    hkA, hLA, hmem, ht, hcb, href, hedgeL, hdelL]
  rw [removeFirst_eq_erase]
  intro hmem2
  have hc := List.count_pos_iff.mpr hmem2
  rw [List.count_erase_self] at hc
  omega

/-- C10 witness: the fixture handler (key 4) stopped and unreferenced from
inside its own callback survives handle_event with ref 1 and cleared
pending mask, and is no longer started. -/
theorem C10_dispatch_holds_ref_witness :
    (aml__handle_event (stopUnrefEnv 0) handlerQueuedState 0 4).map
      (fun st1 => ((findObj st1 4).map (fun ob => (ob.ref, ob.revents)),
                   aml_is_started st1 0 4)) = some (some (1, 0), false) := by
  obtain ⟨st1, heq, hproj, hstart, _, _⟩ := C10_dispatch_holds_ref
    handlerQueuedState 0 4
    { type := .handler, ref := 3, id := 4, hasCb := true, fd := 7,
      revents := 1, parent := some 0 }
    { backend := { edgeTriggered := true }, objList := [4], eventQueue := [4] }
    (by decide) (by decide) (by decide) (by decide) (by decide) (by decide)
    (by decide) (by decide) (by decide)
  rw [heq]
  simp [hproj, hstart]

/-!
Claim C2 amended.
-/

/-- C2 amended: coalescing applies to fd handlers only.  For a handler whose
pending mask is non-zero, aml_emit atomically ORs the new readiness bits
into the mask and returns without touching the event queue; for a handler
whose mask was zero the bits are stored and the handler is appended to the
queue once (with one reference added); so under the invariant that a queued
handler always has a non-zero mask — which emit with non-zero bits
preserves — a handler occupies the queue at most once.  A non-fd source,
however, is appended to the queue on EVERY emit, already-queued or not, so
the claimed at-most-once occupancy does not hold for non-fd sources (see
the counterexample). -/
theorem C2_queue_occupancy_amended (st : AmlState) (lk k : Nat) (o : Obj)
    (L : LoopState) (bits : Nat)
    (hL : findLoop st lk = some L)
    (hk : findObj st k = some o) :
    (o.type = .handler → o.revents ≠ 0 →
       aml_emit st lk k bits = some (updateObj k
         (fun ob => { ob with revents := o.revents ||| bits % U32 }) st)) ∧
    (o.type = .handler → o.revents = 0 →
       (aml_emit st lk k bits).map (fun st' =>
           ((findLoop st' lk).map (fun LL => LL.eventQueue),
            (findObj st' k).map (fun ob => (ob.ref, ob.revents)))) =
         some (some (L.eventQueue ++ [k]), some (o.ref + 1, bits % U32))) ∧
    (o.type ≠ .handler →
       (aml_emit st lk k bits).map (fun st' =>
           ((findLoop st' lk).map (fun LL => LL.eventQueue),
            (findObj st' k).map (fun ob => ob.ref))) =
         some (some (L.eventQueue ++ [k]), some (o.ref + 1))) ∧
    (o.type = .handler → bits % U32 ≠ 0 → HandlerQueueInv st lk k →
       ∀ st', aml_emit st lk k bits = some st' → HandlerQueueInv st' lk k) := by
  refine ⟨?_, ?_, ?_, ?_⟩
  · intro ht hrev
    exact emit_handler_pending st lk k o L bits hL hk ht hrev
  · intro ht hrev
    exact emit_handler_fresh st lk k o L bits hL hk ht hrev
  · intro ht
    exact emit_nonhandler st lk k o L bits hL hk ht
  · intro ht hbits hinv
    exact emit_preserves_handler_inv st lk k o bits hk ht hbits hinv

/-- C2 witness: emitting readiness bit 2 on the fixture handler (key 4,
pending mask 1, already queued) ORs the mask to 3 and leaves the queue with
the single occurrence. -/
theorem C2_queue_occupancy_amended_witness :
    (aml_emit handlerQueuedState 0 4 2).map (fun st' =>
        ((findLoop st' 0).map (fun LL => LL.eventQueue),
         (findObj st' 4).map (fun ob => ob.revents))) =
      some (some [4], some 3) := by
  have h := (C2_queue_occupancy_amended handlerQueuedState 0 4
    { type := .handler, ref := 3, id := 4, hasCb := true, fd := 7,
      revents := 1, parent := some 0 }
    { backend := { edgeTriggered := true }, objList := [4], eventQueue := [4] }
    2 (by decide) (by decide)).1 rfl (by decide)
  rw [h]
  decide

end Aml

namespace Aml

theorem earliest_fold_min (st : AmlState) (l : List Nat) :
    ∀ (b : Nat) (r : Option Nat) (j : Nat), j ∈ l → ∀ oj,
    findObj st j = some oj →
    (l.foldl (fun acc k =>
      match findObj st k with
      | some o => if o.deadline < acc.1 then (o.deadline, some k) else acc
      | none => acc) (b, r)).1 ≤ oj.deadline := by
  induction l with
  | nil => intro b r j hj; cases hj
  | cons x t ih =>
    intro b r j hj oj hoj
    simp only [List.foldl_cons]
    rcases List.mem_cons.mp hj with hjx | hjt
    · subst hjx
      rw [hoj]
      by_cases hlt : oj.deadline < b
      · simp only [if_pos hlt]
        exact earliest_fold_le st t _ _
      · simp only [if_neg hlt]
        exact Nat.le_trans (earliest_fold_le st t _ _) (Nat.le_of_not_lt hlt)
    · rcases hx : findObj st x with _ | ox
      · exact ih b r j hjt oj hoj
      · by_cases hxb : ox.deadline < b
        · simp only [if_pos hxb]
          exact ih _ _ j hjt oj hoj
        · simp only [if_neg hxb]
          exact ih b r j hjt oj hoj

theorem earliest_fold_none (st : AmlState) (l : List Nat) :
    ∀ (b : Nat),
    (l.foldl (fun acc k =>
      match findObj st k with
      | some o => if o.deadline < acc.1 then (o.deadline, some k) else acc
      | none => acc) (b, none)).2 = none →
    ∀ j ∈ l, ∀ oj, findObj st j = some oj → b ≤ oj.deadline := by
  induction l with
  | nil => intro b _ j hj; cases hj
  | cons x t ih =>
    intro b hnone j hj oj hoj
    simp only [List.foldl_cons] at hnone
    rcases hx : findObj st x with _ | ox
    · simp only [hx] at hnone
      rcases List.mem_cons.mp hj with hjx | hjt
      · subst hjx
        rw [hx] at hoj
        cases hoj
      · exact ih b hnone j hjt oj hoj
    · simp only [hx] at hnone
      by_cases hxb : ox.deadline < b
      · rw [if_pos hxb] at hnone
        exfalso
        rcases earliest_fold_cases st t ox.deadline (some x) with hc | ⟨j2, _, oj2, _, hres⟩
        · rw [hc] at hnone
          simp at hnone
        · rw [hres] at hnone
          simp at hnone
      · rw [if_neg hxb] at hnone
        rcases List.mem_cons.mp hj with hjx | hjt
        · subst hjx
          rw [hx] at hoj
          cases hoj
          exact Nat.le_of_not_lt hxb
        · exact ih b hnone j hjt oj hoj

theorem earliest_spec_some (st : AmlState) (lk : Nat) (L : LoopState)
    (hL : findLoop st lk = some L) (k : Nat)
    (hsel : aml__get_timer_with_earliest_deadline st lk = some k) :
    k ∈ L.timerList ∧ ∃ o, findObj st k = some o ∧
      ∀ j ∈ L.timerList, ∀ oj, findObj st j = some oj →
        oj.deadline ≥ o.deadline := by
  simp only [aml__get_timer_with_earliest_deadline, hL] at hsel
  rcases earliest_fold_cases st L.timerList (U64 - 1) none with hc | ⟨j, hj, oj, hoj, hres⟩
  · rw [hc] at hsel
    simp at hsel
  · rw [hres] at hsel
    simp at hsel
    subst hsel
    refine ⟨hj, oj, hoj, ?_⟩
    intro j2 hj2 oj2 hoj2
    have := earliest_fold_min st L.timerList (U64 - 1) none j2 hj2 oj2 hoj2
    rw [hres] at this
    exact this

theorem earliest_spec_none (st : AmlState) (lk : Nat) (L : LoopState)
    (hL : findLoop st lk = some L)
    (hsel : aml__get_timer_with_earliest_deadline st lk = none) :
    ∀ j ∈ L.timerList, ∀ oj, findObj st j = some oj →
      U64 - 1 ≤ oj.deadline := by
  simp only [aml__get_timer_with_earliest_deadline, hL] at hsel
  intro j hj oj hoj
  exact earliest_fold_none st L.timerList (U64 - 1) hsel j hj oj hoj

end Aml

namespace Aml

theorem handle_timeout_fires_ticker (now : Nat) (st : AmlState) (lk k0 : Nat)
    (o0 : Obj) (L : LoopState)
    (hL : findLoop st lk = some L)
    (hk0 : findObj st k0 = some o0)
    (hsel : aml__get_timer_with_earliest_deadline st lk = some k0)
    (ht : o0.type = .ticker)
    (hdue : o0.deadline ≤ now) :
    ∃ st', aml__handle_timeout now st lk = some (true, st') ∧
      st'.firedLog = st.firedLog ++ [(k0, o0.deadline)] ∧
      (∀ j, j ≠ k0 → findObj st' j = findObj st j) ∧
      findObj st' k0 = some { o0 with
        ref := o0.ref + 1
        deadline := (o0.deadline + o0.timeout) % U64 } ∧
      findLoop st' lk = some { L with eventQueue := L.eventQueue ++ [k0] } := by
  have hkA : assocFind st.objs k0 = some o0 := hk0
  have hLA : assocFind st.loops lk = some L := hL
  have hnotdue : ¬ o0.deadline > now := by omega
  refine ⟨updateObj k0
      (fun ob => { ob with deadline := (ob.deadline + ob.timeout) % U64 })
      { (updateObj k0 (fun ob => { ob with ref := ob.ref + 1 })
          (updateLoop lk (fun LL => { LL with eventQueue := LL.eventQueue ++ [k0] }) st))
        with firedLog := st.firedLog ++ [(k0, o0.deadline)] },
      ?_, ?_, ?_, ?_, ?_⟩
  · simp [aml__handle_timeout, hsel, hk0, hnotdue, ht, aml_emit, aml_ref,
      findObj_eq_assocFind, findLoop_eq_assocFind, objs_updateObj,
      objs_updateLoop, loops_updateObj, loops_updateLoop,
      assocFind_assocUpdate, updateObj, updateLoop, hkA, hLA]
  · rfl
  · intro j hj
    simp [findObj_eq_assocFind, objs_updateObj, objs_updateLoop,
      assocFind_assocUpdate, hj, Ne.symm hj]
  · simp [findObj_eq_assocFind, objs_updateObj, objs_updateLoop,
      assocFind_assocUpdate, hkA]
  · simp [findLoop_eq_assocFind, loops_updateObj, loops_updateLoop,
      assocFind_assocUpdate, hLA]

end Aml

namespace Aml

theorem handle_timeout_fires_timer (now : Nat) (st : AmlState) (lk k0 : Nat)
    (o0 : Obj) (L : LoopState)
    (hL : findLoop st lk = some L)
    (hk0 : findObj st k0 = some o0)
    (hsel : aml__get_timer_with_earliest_deadline st lk = some k0)
    (ht : o0.type = .timer)
    (hdue : o0.deadline ≤ now)
    (hmem : k0 ∈ L.objList)
    (href : 1 ≤ o0.ref) :
    ∃ st', aml__handle_timeout now st lk = some (true, st') ∧
      st'.firedLog = st.firedLog ++ [(k0, o0.deadline)] ∧
      (∀ j, j ≠ k0 → findObj st' j = findObj st j) ∧
      (findObj st' k0).map (fun ob => (ob.ref, ob.deadline)) =
        some (o0.ref, o0.deadline) ∧
      findLoop st' lk = some { L with
        objList := removeFirst k0 L.objList
        timerList := removeFirst k0 L.timerList
        eventQueue := L.eventQueue ++ [k0] } := by
  have hkA : assocFind st.objs k0 = some o0 := hk0
  have hLA : assocFind st.loops lk = some L := hL
  have hnotdue : ¬ o0.deadline > now := by omega
  have h0 : ¬ o0.ref = 0 := by omega
  refine ⟨updateObj k0 (fun ob => { ob with ref := o0.ref })
      (updateLoop lk (fun LL => { LL with timerList := removeFirst k0 LL.timerList })
        (updateObj k0 (fun ob => { ob with ref := o0.ref + 1 })
          (updateLoop lk (fun LL => { LL with objList := removeFirst k0 LL.objList })
            (updateObj k0 (fun ob => { ob with ref := ob.ref + 1 })
              { (updateObj k0 (fun ob => { ob with ref := ob.ref + 1 })
                  (updateLoop lk (fun LL => { LL with eventQueue := LL.eventQueue ++ [k0] }) st))
                with firedLog := st.firedLog ++ [(k0, o0.deadline)] })))),
      ?_, ?_, ?_, ?_, ?_⟩
  · simp [aml__handle_timeout, hsel, hk0, hnotdue, ht, aml_emit, aml_ref,
      aml_stop, aml__obj_try_remove, aml__obj_remove, aml__stop_unchecked,
      aml__stop_timer, aml_unref_src, aml__free_src_obj,
      findObj_eq_assocFind, findLoop_eq_assocFind, objs_updateObj,
      objs_updateLoop, loops_updateObj, loops_updateLoop,
      globalList_updateObj, globalList_updateLoop,
      assocFind_assocUpdate, updateObj, updateLoop, hkA, hLA, hmem, h0]
  · rfl
  · intro j hj
    simp [findObj_eq_assocFind, objs_updateObj, objs_updateLoop,
      assocFind_assocUpdate, hj, Ne.symm hj]
  · simp [findObj_eq_assocFind, objs_updateObj, objs_updateLoop,
      assocFind_assocUpdate, hkA]
  · simp [findLoop_eq_assocFind, loops_updateObj, loops_updateLoop,
      assocFind_assocUpdate, hLA]

end Aml

namespace Aml

theorem lastFired_of_append (st1 : AmlState) (log : List (Nat × Nat))
    (k0 d0 : Nat) (h : st1.firedLog = log ++ [(k0, d0)]) :
    lastFired st1 = d0 := by
  simp [lastFired, h]

theorem chain'_append_singleton (l : List Nat) (d : Nat)
    (hc : List.Chain' (· ≤ ·) l)
    (hd : (l.getLast?).getD 0 ≤ d) :
    List.Chain' (· ≤ ·) (l ++ [d]) := by
  rw [List.chain'_append]
  refine ⟨hc, List.chain'_singleton d, ?_⟩
  intro x hx y hy
  simp at hy
  subst hy
  rw [hx] at hd
  simpa using hd

theorem handle_timeout_cases (now : Nat) (st : AmlState) (lk : Nat)
    (b : Bool) (st₀ : AmlState)
    (hstep : aml__handle_timeout now st lk = some (b, st₀)) :
    (b = false ∧ st₀ = st ∧
      (aml__get_timer_with_earliest_deadline st lk = none ∨
       ∃ k o, aml__get_timer_with_earliest_deadline st lk = some k ∧
         findObj st k = some o ∧ now < o.deadline)) ∨
    (b = true ∧ ∃ k o, aml__get_timer_with_earliest_deadline st lk = some k ∧
       findObj st k = some o ∧ o.deadline ≤ now) := by
  rcases hsel : aml__get_timer_with_earliest_deadline st lk with _ | k
  · left
    simp [aml__handle_timeout, hsel] at hstep
    exact ⟨hstep.1, hstep.2.symm, Or.inl rfl⟩
  · rcases hk : findObj st k with _ | o
    · simp [aml__handle_timeout, hsel, hk] at hstep
    · by_cases hdue : o.deadline > now
      · left
        simp [aml__handle_timeout, hsel, hk, hdue] at hstep
        exact ⟨hstep.1, hstep.2.symm, Or.inr ⟨k, o, rfl, hk, hdue⟩⟩
      · right
        refine ⟨?_, k, o, rfl, hk, Nat.le_of_not_lt hdue⟩
        rcases hemit : aml_emit st lk k 0 with _ | st1
        · simp [aml__handle_timeout, hsel, hk, hdue, hemit] at hstep
        · rcases htype : o.type <;>
            simp [aml__handle_timeout, hsel, hk, hdue, hemit, htype,
              Option.bind_eq_some] at hstep
          · rcases hstep with ⟨p, hp⟩
            exact hp
          · exact hstep.1

end Aml

namespace Aml

theorem drain_spec (fuel : Nat) :
    ∀ (now : Nat) (st : AmlState) (lk : Nat) (st' : AmlState),
      now < 2 ^ 63 →
      TimerInv st lk →
      List.Chain' (· ≤ ·) (st.firedLog.map Prod.snd) →
      aml__drain_timers fuel now st lk = some st' →
      List.Chain' (· ≤ ·) (st'.firedLog.map Prod.snd) ∧
      (∀ x ∈ st.firedLog, x ∈ st'.firedLog) ∧
      TimerInv st' lk ∧
      (∀ L, findLoop st lk = some L →
        ∀ j ∈ L.timerList, ∀ oj, findObj st j = some oj →
          oj.deadline ≤ now → j ∈ st'.firedLog.map Prod.fst) ∧
      (∀ L, findLoop st' lk = some L →
        ∀ j ∈ L.timerList, ∀ oj, findObj st' j = some oj →
          now < oj.deadline) := by
  induction fuel with
  | zero =>
    intro now st lk st' _ _ _ hdrain
    simp [aml__drain_timers] at hdrain
  | succ fuel ih =>
    intro now st lk st' hnow hinv hchain hdrain
    obtain ⟨L, hL, hnodup, hbody⟩ := hinv
    rcases hstep : aml__handle_timeout now st lk with _ | ⟨b, st1⟩
    · simp [aml__drain_timers, hstep] at hdrain
    · rcases b with _ | _
      · -- nothing fired: state unchanged, no due timer remains
        simp [aml__drain_timers, hstep] at hdrain
        subst hdrain
        rcases handle_timeout_cases now st lk false st1 hstep with
          ⟨_, hst1, hnone⟩ | ⟨hb, _⟩
        · subst hst1
          have hnodue : ∀ j ∈ L.timerList, ∀ oj, findObj st1 j = some oj →
              now < oj.deadline := by
            intro j hj oj hoj
            rcases hnone with hsel | ⟨k, o, hsel, hk, hgt⟩
            · have := earliest_spec_none _ _ _ hL hsel j hj oj hoj
              simp [U64] at this
              omega
            · obtain ⟨hkmem, o2, hk2, hmin⟩ := earliest_spec_some _ _ _ hL k hsel
              rw [hk] at hk2
              injection hk2 with ho2
              subst ho2
              have := hmin j hj oj hoj
              omega
          refine ⟨hchain, fun x hx => hx, ⟨L, hL, hnodup, hbody⟩, ?_, ?_⟩
          · intro L0 hL0 j hj oj hoj hdue
            rw [hL] at hL0
            injection hL0 with hL0
            subst hL0
            exact absurd hdue (Nat.not_le_of_lt (hnodue j hj oj hoj))
          · intro L0 hL0 j hj oj hoj
            rw [hL] at hL0
            injection hL0 with hL0
            subst hL0
            exact hnodue j hj oj hoj
        · exact absurd hb (by simp)
      · -- one timer fired: step lemma + induction hypothesis
        simp [aml__drain_timers, hstep] at hdrain
        rcases handle_timeout_cases now st lk true st1 hstep with
          ⟨hb, _⟩ | ⟨_, k, o, hsel, hk, hdue⟩
        · exact absurd hb (by simp)
        obtain ⟨hkmem, o2, hk2, hmin⟩ := earliest_spec_some _ _ _ hL k hsel
        rw [hk] at hk2
        injection hk2 with ho2
        subst ho2
        obtain ⟨ok, hok, htypes, htmo, href, hge⟩ := hbody k hkmem
        rw [hk] at hok
        injection hok with hok
        subst hok
        rcases htypes with ⟨htimer, hmemobj⟩ | hticker
        · -- one-shot timer fired
          obtain ⟨stW, hstepW, hlog, hpres, hkobj, hL1⟩ :=
            handle_timeout_fires_timer now st lk k o L hL hk hsel htimer hdue
              hmemobj href
          rw [hstep] at hstepW
          have hWeq : st1 = stW :=
            congrArg Prod.snd (Option.some.inj hstepW)
          subst hWeq
          have hlast1 : lastFired st1 = o.deadline :=
            lastFired_of_append _ _ _ _ hlog
          have hchain1 : List.Chain' (· ≤ ·) (st1.firedLog.map Prod.snd) := by
            rw [hlog]
            simpa using chain'_append_singleton _ o.deadline hchain hge
          have hinv1 : TimerInv st1 lk := by
            refine ⟨_, hL1, ?_, ?_⟩
            · show (removeFirst k L.timerList).Nodup
              rw [removeFirst_eq_erase]
              exact hnodup.erase k
            · intro j hj
              have hj0 : j ∈ removeFirst k L.timerList := hj
              rw [removeFirst_eq_erase] at hj0
              have hjk : j ≠ k ∧ j ∈ L.timerList :=
                (List.Nodup.mem_erase_iff hnodup).mp hj0
              obtain ⟨oj, hoj, htyj, htmoj, hrefj, hgej⟩ := hbody j hjk.2
              refine ⟨oj, ?_, ?_, htmoj, hrefj, ?_⟩
              · rw [hpres j hjk.1]
                exact hoj
              · rcases htyj with ⟨h1, h2⟩ | h1
                · refine Or.inl ⟨h1, ?_⟩
                  show j ∈ removeFirst k L.objList
                  rw [removeFirst_eq_erase]
                  exact (List.mem_erase_of_ne hjk.1).mpr h2
                · exact Or.inr h1
              · rw [hlast1]
                exact hmin j hjk.2 oj hoj
          obtain ⟨C1, C2, C3, C4, C5⟩ := ih now st1 lk st' hnow hinv1 hchain1 hdrain
          refine ⟨C1, ?_, C3, ?_, C5⟩
          · intro x hx
            exact C2 x (by rw [hlog]; exact List.mem_append_left _ hx)
          · intro L0 hL0 j hj oj hoj hduej
            rw [hL] at hL0
            injection hL0 with hL0
            subst hL0
            by_cases hjk : j = k
            · subst hjk
              have hxk : (j, o.deadline) ∈ st1.firedLog := by
                rw [hlog]
                exact List.mem_append_right _ (by simp)
              exact List.mem_map_of_mem Prod.fst (C2 _ hxk)
            · refine C4 _ hL1 j ?_ oj ?_ hduej
              · show j ∈ removeFirst k L.timerList
                rw [removeFirst_eq_erase]
                exact (List.mem_erase_of_ne hjk).mpr hj
              · rw [hpres j hjk]
                exact hoj
        · -- periodic ticker fired and was re-armed
          obtain ⟨stW, hstepW, hlog, hpres, hkobj, hL1⟩ :=
            handle_timeout_fires_ticker now st lk k o L hL hk hsel hticker hdue
          rw [hstep] at hstepW
          have hWeq : st1 = stW :=
            congrArg Prod.snd (Option.some.inj hstepW)
          subst hWeq
          have hlast1 : lastFired st1 = o.deadline :=
            lastFired_of_append _ _ _ _ hlog
          have hchain1 : List.Chain' (· ≤ ·) (st1.firedLog.map Prod.snd) := by
            rw [hlog]
            simpa using chain'_append_singleton _ o.deadline hchain hge
          have hinv1 : TimerInv st1 lk := by
            refine ⟨_, hL1, hnodup, ?_⟩
            intro j hj
            have hj' : j ∈ L.timerList := hj
            by_cases hjk : j = k
            · subst hjk
              refine ⟨_, hkobj, Or.inr hticker, htmo, ?_, ?_⟩
              · exact Nat.succ_le_succ (Nat.zero_le _)
              · rw [hlast1]
                show o.deadline ≤ (o.deadline + o.timeout) % U64
                have h1 : o.timeout < 2 ^ 32 := htmo
                have h2 : o.deadline ≤ now := hdue
                have hw : o.deadline + o.timeout < U64 := by
                  show o.deadline + o.timeout < 2 ^ 64
                  have e32 : (2 : Nat) ^ 32 = 4294967296 := by norm_num
                  have e63 : (2 : Nat) ^ 63 = 9223372036854775808 := by norm_num
                  have e64 : (2 : Nat) ^ 64 = 18446744073709551616 := by
                    norm_num
                  omega
                rw [Nat.mod_eq_of_lt hw]
                omega
            · obtain ⟨oj, hoj, htyj, htmoj, hrefj, hgej⟩ := hbody j hj'
              refine ⟨oj, ?_, htyj, htmoj, hrefj, ?_⟩
              · rw [hpres j hjk]
                exact hoj
              · rw [hlast1]
                exact hmin j hj' oj hoj
          obtain ⟨C1, C2, C3, C4, C5⟩ := ih now st1 lk st' hnow hinv1 hchain1 hdrain
          refine ⟨C1, ?_, C3, ?_, C5⟩
          · intro x hx
            exact C2 x (by rw [hlog]; exact List.mem_append_left _ hx)
          · intro L0 hL0 j hj oj hoj hduej
            rw [hL] at hL0
            injection hL0 with hL0
            subst hL0
            by_cases hjk : j = k
            · subst hjk
              have hxk : (j, o.deadline) ∈ st1.firedLog := by
                rw [hlog]
                exact List.mem_append_right _ (by simp)
              exact List.mem_map_of_mem Prod.fst (C2 _ hxk)
            · refine C4 _ hL1 j hj oj ?_ hduej
              rw [hpres j hjk]
              exact hoj

end Aml

namespace Aml

theorem TimerInvB_true {st : AmlState} {lk : Nat}
    (h : TimerInvB st lk = true) : TimerInv st lk := by
  unfold TimerInvB at h
  rcases hL : findLoop st lk with _ | L
  · rw [hL] at h
    simp at h
  · rw [hL] at h
    simp only [Bool.and_eq_true, decide_eq_true_eq, List.all_eq_true] at h
    refine ⟨L, hL, h.1, ?_⟩
    intro j hj
    have hj2 := h.2 j hj
    rcases hoj : findObj st j with _ | oj
    · rw [hoj] at hj2
      simp at hj2
    · rw [hoj] at hj2
      simp only [Bool.and_eq_true, Bool.or_eq_true, decide_eq_true_eq] at hj2
      rcases hj2 with ⟨⟨⟨hab, hto⟩, href⟩, hlf⟩
      refine ⟨oj, rfl, ?_, hto, href, hlf⟩
      rcases hab with ⟨h1, h2⟩ | h1
      · exact Or.inl ⟨h1, by simpa using h2⟩
      · exact Or.inr h1

end Aml

namespace Aml

/-- C4: within one dispatch, the timer-drain phase fires timers in
non-decreasing deadline order, fires every armed timer whose deadline is ≤
now, leaves no armed timer due, and re-arms each fired source by kind: a
ticker's deadline advances by its period (mod 2^64) while it stays started,
and a one-shot timer is stopped (removed from the started and timer lists). -/
theorem C4_timer_drain (now : Nat) (st : AmlState) (lk : Nat) (st' : AmlState)
    (fuel : Nat)
    (hnow : now < 2 ^ 63)
    (hinv : TimerInvB st lk = true)
    (hlog0 : st.firedLog = [])
    (hdrain : aml__drain_timers fuel now st lk = some st') :
    List.Chain' (· ≤ ·) (st'.firedLog.map Prod.snd) ∧
    (∀ L, findLoop st lk = some L →
      ∀ j ∈ L.timerList, ∀ oj, findObj st j = some oj →
        oj.deadline ≤ now → j ∈ st'.firedLog.map Prod.fst) ∧
    (∀ L, findLoop st' lk = some L →
      ∀ j ∈ L.timerList, ∀ oj, findObj st' j = some oj → now < oj.deadline) ∧
    (∀ k o L, findLoop st lk = some L → findObj st k = some o →
      aml__get_timer_with_earliest_deadline st lk = some k →
      o.type = .ticker → o.deadline ≤ now →
      ∃ st1, aml__handle_timeout now st lk = some (true, st1) ∧
        findObj st1 k = some { o with
          ref := o.ref + 1
          deadline := (o.deadline + o.timeout) % U64 } ∧
        findLoop st1 lk = some { L with eventQueue := L.eventQueue ++ [k] }) ∧
    (∀ k o L, findLoop st lk = some L → findObj st k = some o →
      aml__get_timer_with_earliest_deadline st lk = some k →
      o.type = .timer → o.deadline ≤ now → k ∈ L.objList → 1 ≤ o.ref →
      ∃ st1, aml__handle_timeout now st lk = some (true, st1) ∧
        findLoop st1 lk = some { L with
          objList := removeFirst k L.objList
          timerList := removeFirst k L.timerList
          eventQueue := L.eventQueue ++ [k] }) := by
  have hinv2 := TimerInvB_true hinv
  have hchain0 : List.Chain' (· ≤ ·) (st.firedLog.map Prod.snd) := by
    rw [hlog0]
    simp
  obtain ⟨C1, C2, C3, C4, C5⟩ :=
    drain_spec fuel now st lk st' hnow hinv2 hchain0 hdrain
  refine ⟨C1, C4, C5, ?_, ?_⟩
  · intro k o L hL hk hsel ht hdue
    obtain ⟨st1, h1, _, _, hko, hL1⟩ :=
      handle_timeout_fires_ticker now st lk k o L hL hk hsel ht hdue
    exact ⟨st1, h1, hko, hL1⟩
  · intro k o L hL hk hsel ht hdue hmem href
    obtain ⟨st1, h1, _, _, _, hL1⟩ :=
      handle_timeout_fires_timer now st lk k o L hL hk hsel ht hdue hmem href
    exact ⟨st1, h1, hL1⟩

theorem C4_timer_drain_witness :
    (100 < 2 ^ 63 ∧ TimerInvB timersState 0 = true ∧
      timersState.firedLog = [] ∧
      aml__drain_timers 10 100 timersState 0 = some timersDrained) ∧
    (List.Chain' (· ≤ ·) (timersDrained.firedLog.map Prod.snd) ∧
    (∀ L, findLoop timersState 0 = some L →
      ∀ j ∈ L.timerList, ∀ oj, findObj timersState j = some oj →
        oj.deadline ≤ 100 → j ∈ timersDrained.firedLog.map Prod.fst) ∧
    (∀ L, findLoop timersDrained 0 = some L →
      ∀ j ∈ L.timerList, ∀ oj, findObj timersDrained j = some oj →
        100 < oj.deadline) ∧
    (∀ k o L, findLoop timersState 0 = some L → findObj timersState k = some o →
      aml__get_timer_with_earliest_deadline timersState 0 = some k →
      o.type = .ticker → o.deadline ≤ 100 →
      ∃ st1, aml__handle_timeout 100 timersState 0 = some (true, st1) ∧
        findObj st1 k = some { o with
          ref := o.ref + 1
          deadline := (o.deadline + o.timeout) % U64 } ∧
        findLoop st1 0 = some { L with eventQueue := L.eventQueue ++ [k] }) ∧
    (∀ k o L, findLoop timersState 0 = some L → findObj timersState k = some o →
      aml__get_timer_with_earliest_deadline timersState 0 = some k →
      o.type = .timer → o.deadline ≤ 100 → k ∈ L.objList → 1 ≤ o.ref →
      ∃ st1, aml__handle_timeout 100 timersState 0 = some (true, st1) ∧
        findLoop st1 0 = some { L with
          objList := removeFirst k L.objList
          timerList := removeFirst k L.timerList
          eventQueue := L.eventQueue ++ [k] })) :=
  ⟨⟨by norm_num, by decide, rfl, by decide⟩,
   C4_timer_drain 100 timersState 0 timersDrained 10 (by norm_num) (by decide)
     rfl (by decide)⟩

end Aml

namespace Aml

theorem event_drain_step_keep (fuel : Nat) (st : AmlState) (lk k : Nat)
    (t : List Nat) (L : LoopState) (o : Obj)
    (hL : findLoop st lk = some L)
    (hq : L.eventQueue = k :: t)
    (hk : findObj st k = some o)
    (href : 2 ≤ o.ref)
    (hth : o.type ≠ .handler) :
    ∃ st3, aml__event_drain noopEnv (fuel + 1) st lk =
        aml__event_drain noopEnv fuel st3 lk ∧
      findLoop st3 lk = some { L with eventQueue := t } ∧
      st3.invoked = st.invoked ++ (if o.hasCb then [k] else []) ∧
      (∀ j, j ≠ k → findObj st3 j = findObj st j) ∧
      findObj st3 k = some { o with ref := o.ref - 1 } := by
  have hkA : assocFind st.objs k = some o := hk
  have hLA : assocFind st.loops lk = some L := hL
  have h0 : ¬ (o.ref = 0) := by omega
  have h1 : ¬ (o.ref - 1 = 0) := by omega
  by_cases hcb : o.hasCb
  · refine ⟨updateObj k (fun ob => { ob with ref := o.ref - 1 })
      (updateObj k (fun ob => { ob with ref := o.ref })
        { (updateObj k (fun ob => { ob with ref := ob.ref + 1 })
            (updateLoop lk (fun LL => { LL with eventQueue := t }) st)) with
          invoked := st.invoked ++ [k] }), ?_, ?_, ?_, ?_, ?_⟩
    · simp [aml__event_drain, aml__event_dequeue, aml__handle_event, aml_ref,
        noopEnv, aml_unref_src,
        findObj_mk, findLoop_mk, loopBackend_mk, objs_updateObj, objs_updateLoop,
        loops_updateObj, loops_updateLoop, invoked_updateObj, invoked_updateLoop,
        globalList_updateObj, globalList_updateLoop,
        findObj_eq_assocFind, findLoop_eq_assocFind, loopBackend_eq,
        assocFind_assocUpdate, updateObj, updateLoop,
        hkA, hLA, hq, hth, hcb, h0, h1]
    · simp [findLoop_updateObj, findLoop_setInvoked, findLoop_updateLoop, hL]
    · simp [invoked_updateObj, hcb]
    · intro j hjk
      simp [findObj_updateObj_ne _ _ _ _ hjk, findObj_setInvoked,
        findObj_updateLoop]
    · simp [findObj_updateObj_self, findObj_setInvoked, findObj_updateLoop,
        findObj_updateObj_ne, hk]
  · refine ⟨updateObj k (fun ob => { ob with ref := o.ref - 1 })
      (updateObj k (fun ob => { ob with ref := o.ref })
        (updateObj k (fun ob => { ob with ref := ob.ref + 1 })
          (updateLoop lk (fun LL => { LL with eventQueue := t }) st))),
      ?_, ?_, ?_, ?_, ?_⟩
    · simp [aml__event_drain, aml__event_dequeue, aml__handle_event, aml_ref,
        noopEnv, aml_unref_src,
        findObj_mk, findLoop_mk, loopBackend_mk, objs_updateObj, objs_updateLoop,
        loops_updateObj, loops_updateLoop, invoked_updateObj, invoked_updateLoop,
        globalList_updateObj, globalList_updateLoop,
        findObj_eq_assocFind, findLoop_eq_assocFind, loopBackend_eq,
        assocFind_assocUpdate, updateObj, updateLoop,
        hkA, hLA, hq, hth, hcb, h0, h1]
    · simp [findLoop_updateObj, findLoop_updateLoop, hL]
    · simp [invoked_updateObj, invoked_updateLoop, hcb]
    · intro j hjk
      simp [findObj_updateObj_ne _ _ _ _ hjk, findObj_updateLoop]
    · simp [findObj_updateObj_self, findObj_updateLoop, hk]

set_option maxHeartbeats 1600000 in
theorem event_drain_step_free (fuel : Nat) (st : AmlState) (lk k : Nat)
    (t : List Nat) (L : LoopState) (o : Obj)
    (hL : findLoop st lk = some L)
    (hq : L.eventQueue = k :: t)
    (hk : findObj st k = some o)
    (href : o.ref = 1)
    (hth : o.type ≠ .handler) (hta : o.type ≠ .aml) (htu : o.type ≠ .unspec) :
    ∃ st3, aml__event_drain noopEnv (fuel + 1) st lk =
        aml__event_drain noopEnv fuel st3 lk ∧
      findLoop st3 lk = some { L with eventQueue := t } ∧
      st3.invoked = st.invoked ++ (if o.hasCb then [k] else []) ∧
      (∀ j, j ≠ k → findObj st3 j = findObj st j) ∧
      findObj st3 k = none := by
  have hkA : assocFind st.objs k = some o := hk
  have hLA : assocFind st.loops lk = some L := hL
  have h0 : ¬ (o.ref = 0) := by omega
  have hr0 : o.ref - 1 = 0 := by omega
  by_cases hcb : o.hasCb
  · refine ⟨removeObj k { (updateObj k (fun ob => { ob with ref := 0 })
        (updateObj k (fun ob => { ob with ref := o.ref })
          { (updateObj k (fun ob => { ob with ref := ob.ref + 1 })
              (updateLoop lk (fun LL => { LL with eventQueue := t }) st)) with
            invoked := st.invoked ++ [k] })) with
      globalList := removeFirst k st.globalList }, ?_, ?_, ?_, ?_, ?_⟩
    · cases hty : o.type
      · exact absurd hty htu
      · exact absurd hty hta
      · exact absurd hty hth
      all_goals
        simp [aml__event_drain, aml__event_dequeue, aml__handle_event, aml_ref,
          noopEnv, aml_unref_src, aml__free_src_obj,
          findObj_mk, findLoop_mk, loopBackend_mk, objs_updateObj,
          objs_updateLoop, loops_updateObj, loops_updateLoop,
          invoked_updateObj, invoked_updateLoop,
          globalList_updateObj, globalList_updateLoop,
          findObj_eq_assocFind, findLoop_eq_assocFind, loopBackend_eq,
          assocFind_assocUpdate, updateObj, updateLoop, removeObj,
          assocFind_assocRemove,
          hkA, hLA, hq, hth, hty, hcb, h0, hr0]
    · simp [removeObj, findLoop_eq_assocFind, loops_updateObj, loops_updateLoop,
        assocFind_assocUpdate, updateLoop, hLA]
    · simp [removeObj, invoked_updateObj, invoked_updateLoop, hcb]
    · intro j hjk
      simp [removeObj, findObj_eq_assocFind, objs_updateObj, objs_updateLoop,
        assocFind_assocUpdate, assocFind_assocRemove, updateObj, hjk]
    · simp [removeObj, findObj_eq_assocFind, objs_updateObj, objs_updateLoop,
        assocFind_assocUpdate, assocFind_assocRemove, updateObj]
  · refine ⟨removeObj k { (updateObj k (fun ob => { ob with ref := 0 })
        (updateObj k (fun ob => { ob with ref := o.ref })
          (updateObj k (fun ob => { ob with ref := ob.ref + 1 })
            (updateLoop lk (fun LL => { LL with eventQueue := t }) st)))) with
      globalList := removeFirst k st.globalList }, ?_, ?_, ?_, ?_, ?_⟩
    · cases hty : o.type
      · exact absurd hty htu
      · exact absurd hty hta
      · exact absurd hty hth
      all_goals
        simp [aml__event_drain, aml__event_dequeue, aml__handle_event, aml_ref,
          noopEnv, aml_unref_src, aml__free_src_obj,
          findObj_mk, findLoop_mk, loopBackend_mk, objs_updateObj,
          objs_updateLoop, loops_updateObj, loops_updateLoop,
          invoked_updateObj, invoked_updateLoop,
          globalList_updateObj, globalList_updateLoop,
          findObj_eq_assocFind, findLoop_eq_assocFind, loopBackend_eq,
          assocFind_assocUpdate, updateObj, updateLoop, removeObj,
          assocFind_assocRemove,
          hkA, hLA, hq, hth, hty, hcb, h0, hr0]
    · simp [removeObj, findLoop_eq_assocFind, loops_updateObj, loops_updateLoop,
        assocFind_assocUpdate, updateLoop, hLA]
    · simp [removeObj, invoked_updateObj, invoked_updateLoop, hcb]
    · intro j hjk
      simp [removeObj, findObj_eq_assocFind, objs_updateObj, objs_updateLoop,
        assocFind_assocUpdate, assocFind_assocRemove, updateObj, hjk]
    · simp [removeObj, findObj_eq_assocFind, objs_updateObj, objs_updateLoop,
        assocFind_assocUpdate, assocFind_assocRemove, updateObj]

end Aml

namespace Aml

theorem event_drain_invokes (fuel : Nat) :
    ∀ (st : AmlState) (lk : Nat) (L : LoopState),
      findLoop st lk = some L →
      (∀ k ∈ L.eventQueue, ∃ o, findObj st k = some o ∧
        L.eventQueue.count k ≤ o.ref ∧
        o.type ≠ .handler ∧ o.type ≠ .aml ∧ o.type ≠ .unspec) →
      L.eventQueue.length < fuel →
      ∃ st', aml__event_drain noopEnv fuel st lk = some st' ∧
        st'.invoked = st.invoked ++ L.eventQueue.filter (fun k => hasCbB st k) ∧
        ∃ L2, findLoop st' lk = some L2 ∧ L2.idleList = L.idleList ∧
          L2.eventQueue = [] := by
  induction fuel with
  | zero =>
    intro st lk L hL hlive hlen
    omega
  | succ fuel ih =>
    intro st lk L hL hlive hlen
    rcases hq : L.eventQueue with _ | ⟨k, t⟩
    · refine ⟨st, ?_, by simp [hq], L, hL, rfl, hq⟩
      simp [aml__event_drain, aml__event_dequeue, hL, hq]
    · obtain ⟨o, hk, hcnt, hth, hta, htu⟩ :=
        hlive k (by rw [hq]; exact List.mem_cons_self k t)
      rw [hq] at hcnt
      have hkc : (k :: t).count k = t.count k + 1 := by
        simp [List.count_cons]
      have href1 : 1 ≤ o.ref := by omega
      have hlen3 : t.length < fuel := by
        rw [hq] at hlen
        simpa using Nat.lt_of_succ_lt_succ hlen
      by_cases hfree : o.ref = 1
      · have hknt : k ∉ t := by
          intro hmem
          have hpos := List.count_pos_iff.mpr hmem
          omega
        obtain ⟨st3, hstep, hL3, hinv3, hpres, hnone⟩ :=
          event_drain_step_free fuel st lk k t L o hL hq hk hfree hth hta htu
        have hlive3 : ∀ j ∈ ({ L with eventQueue := t } : LoopState).eventQueue,
            ∃ oj, findObj st3 j = some oj ∧
              ({ L with eventQueue := t } : LoopState).eventQueue.count j ≤ oj.ref ∧
              oj.type ≠ .handler ∧ oj.type ≠ .aml ∧ oj.type ≠ .unspec := by
          intro j hj
          have hj2 : j ∈ t := hj
          have hjk : j ≠ k := fun h => hknt (h ▸ hj2)
          obtain ⟨oj, hoj, hcj, h1, h2, h3⟩ :=
            hlive j (by rw [hq]; exact List.mem_cons_of_mem _ hj2)
          rw [hq] at hcj
          refine ⟨oj, ?_, ?_, h1, h2, h3⟩
          · rw [hpres j hjk]
            exact hoj
          · have hct : (k :: t).count j = t.count j := by
              simp [List.count_cons, hjk]
            show t.count j ≤ oj.ref
            omega
        obtain ⟨st', hdrain, hinvoked, L2, hL2, hidle, hqe⟩ :=
          ih st3 lk _ hL3 hlive3 hlen3
        refine ⟨st', ?_, ?_, L2, hL2, hidle, hqe⟩
        · rw [hstep]
          exact hdrain
        · rw [hinvoked, hinv3]
          have hproj : ({ L with eventQueue := t } : LoopState).eventQueue = t :=
            rfl
          rw [hproj]
          have hfilter : t.filter (fun j => hasCbB st3 j) =
              t.filter (fun j => hasCbB st j) := by
            apply List.filter_congr
            intro j hj
            have hjk : j ≠ k := fun h => hknt (h ▸ hj)
            simp [hasCbB, hpres j hjk]
          rw [hfilter]
          have hhead : hasCbB st k = o.hasCb := by simp [hasCbB, hk]
          simp only [List.filter_cons, hhead]
          by_cases hcb : o.hasCb <;> simp [hcb]
      · have href2 : 2 ≤ o.ref := by omega
        obtain ⟨st3, hstep, hL3, hinv3, hpres, hkeep⟩ :=
          event_drain_step_keep fuel st lk k t L o hL hq hk href2 hth
        have hlive3 : ∀ j ∈ ({ L with eventQueue := t } : LoopState).eventQueue,
            ∃ oj, findObj st3 j = some oj ∧
              ({ L with eventQueue := t } : LoopState).eventQueue.count j ≤ oj.ref ∧
              oj.type ≠ .handler ∧ oj.type ≠ .aml ∧ oj.type ≠ .unspec := by
          intro j hj
          have hj2 : j ∈ t := hj
          by_cases hjk : j = k
          · subst hjk
            refine ⟨{ o with ref := o.ref - 1 }, hkeep, ?_, hth, hta, htu⟩
            show t.count j ≤ o.ref - 1
            omega
          · obtain ⟨oj, hoj, hcj, h1, h2, h3⟩ :=
              hlive j (by rw [hq]; exact List.mem_cons_of_mem _ hj2)
            rw [hq] at hcj
            refine ⟨oj, ?_, ?_, h1, h2, h3⟩
            · rw [hpres j hjk]
              exact hoj
            · have hct : (k :: t).count j = t.count j := by
                simp [List.count_cons, hjk]
              show t.count j ≤ oj.ref
              omega
        obtain ⟨st', hdrain, hinvoked, L2, hL2, hidle, hqe⟩ :=
          ih st3 lk _ hL3 hlive3 hlen3
        refine ⟨st', ?_, ?_, L2, hL2, hidle, hqe⟩
        · rw [hstep]
          exact hdrain
        · rw [hinvoked, hinv3]
          have hproj : ({ L with eventQueue := t } : LoopState).eventQueue = t :=
            rfl
          rw [hproj]
          have hfilter : t.filter (fun j => hasCbB st3 j) =
              t.filter (fun j => hasCbB st j) := by
            apply List.filter_congr
            intro j hj
            by_cases hjk : j = k
            · subst hjk
              simp [hasCbB, hkeep, hk]
            · simp [hasCbB, hpres j hjk]
          rw [hfilter]
          have hhead : hasCbB st k = o.hasCb := by simp [hasCbB, hk]
          simp only [List.filter_cons, hhead]
          by_cases hcb : o.hasCb <;> simp [hcb]

end Aml

namespace Aml

theorem dispatch_invokes (st : AmlState) (lk now fuelQ : Nat) (L : LoopState)
    (hL : findLoop st lk = some L)
    (hnd : noDueTimerB st lk now = true)
    (hql : queueLiveB st lk = true)
    (hidle : L.idleList = [])
    (hfq : L.eventQueue.length < fuelQ) :
    ∃ st', aml_dispatch noopEnv 1 fuelQ now st lk = some st' ∧
      st'.invoked = st.invoked ++ L.eventQueue.filter (fun k => hasCbB st k) := by
  have hlive : ∀ j ∈ L.eventQueue, ∃ o, findObj st j = some o ∧
      L.eventQueue.count j ≤ o.ref ∧ o.type ≠ .handler ∧ o.type ≠ .aml ∧
      o.type ≠ .unspec := by
    unfold queueLiveB at hql
    rw [hL] at hql
    simp only [List.all_eq_true] at hql
    intro j hj
    have hj2 := hql j hj
    rcases hoj : findObj st j with _ | o
    · rw [hoj] at hj2
      simp at hj2
    · rw [hoj] at hj2
      simp only [Bool.and_eq_true, decide_eq_true_eq] at hj2
      exact ⟨o, rfl, hj2.1.1.1, hj2.1.1.2, hj2.1.2, hj2.2⟩
  unfold noDueTimerB at hnd
  rcases hsel : aml__get_timer_with_earliest_deadline st lk with _ | k
  · -- no armed timer at all
    have hsel0 : aml__get_timer_with_earliest_deadline
        { st with firedLog := [] } lk = none := hsel
    have hht : aml__handle_timeout now { st with firedLog := [] } lk =
        some (false, { st with firedLog := [] }) := by
      simp [aml__handle_timeout, hsel0]
    have hfl0 : findLoop ({ st with firedLog := [] } : AmlState) lk = some L :=
      hL
    have hlive0 : ∀ j ∈ L.eventQueue,
        ∃ o, findObj ({ st with firedLog := [] } : AmlState) j = some o ∧
          L.eventQueue.count j ≤ o.ref ∧ o.type ≠ .handler ∧ o.type ≠ .aml ∧
          o.type ≠ .unspec := hlive
    obtain ⟨st3, hdrain, hinvoked, L2, hL2, hidle2, hqe2⟩ :=
      event_drain_invokes fuelQ { st with firedLog := [] } lk L hfl0 hlive0 hfq
    have hidleL2 : L2.idleList = [] := by rw [hidle2]; exact hidle
    have hhi : aml__handle_idle noopEnv st3 lk = some st3 := by
      simp [aml__handle_idle, hL2, hidleL2, aml__handle_idle_go]
    refine ⟨st3, ?_, hinvoked⟩
    simp [aml_dispatch, hL, aml__drain_timers, hht, hsel0, hdrain, hhi]
  · -- one armed timer, strictly in the future
    simp only [hsel] at hnd
    rcases hk : findObj st k with _ | o
    · simp only [hk] at hnd
      exact absurd hnd (by simp)
    · simp only [hk, decide_eq_true_eq] at hnd
      have hgt : o.deadline > now := hnd
      have hsel0 : aml__get_timer_with_earliest_deadline
          { st with firedLog := [] } lk = some k := hsel
      have hk0 : findObj ({ st with firedLog := [] } : AmlState) k = some o :=
        hk
      have hht : aml__handle_timeout now { st with firedLog := [] } lk =
          some (false, { st with firedLog := [] }) := by
        simp [aml__handle_timeout, hsel0, hk0, hgt]
      have hfl0 : findLoop ({ st with firedLog := [] } : AmlState) lk =
          some L := hL
      have hfl2 : findLoop
          (aml__set_deadline { st with firedLog := [] } lk o.deadline) lk =
          some { L with setDeadlines := o.deadline :: L.setDeadlines } := by
        simp [aml__set_deadline, findLoop_updateLoop, hfl0]
      have hlive2 : ∀ j ∈ ({ L with
            setDeadlines := o.deadline :: L.setDeadlines } : LoopState).eventQueue,
          ∃ ob, findObj
              (aml__set_deadline { st with firedLog := [] } lk o.deadline) j =
              some ob ∧
            ({ L with setDeadlines := o.deadline :: L.setDeadlines } :
              LoopState).eventQueue.count j ≤ ob.ref ∧
            ob.type ≠ .handler ∧ ob.type ≠ .aml ∧ ob.type ≠ .unspec := by
        intro j hj
        exact hlive j hj
      obtain ⟨st3, hdrain, hinvoked, L2, hL2, hidle2, hqe2⟩ :=
        event_drain_invokes fuelQ
          (aml__set_deadline { st with firedLog := [] } lk o.deadline) lk
          { L with setDeadlines := o.deadline :: L.setDeadlines }
          hfl2 hlive2 hfq
      have hidleL2 : L2.idleList = [] := by rw [hidle2]; exact hidle
      have hhi : aml__handle_idle noopEnv st3 lk = some st3 := by
        simp [aml__handle_idle, hL2, hidleL2, aml__handle_idle_go]
      refine ⟨st3, ?_, hinvoked⟩
      simp [aml_dispatch, hL, aml__drain_timers, hht, hsel0, hk0, hgt,
        hdrain, hhi]

end Aml

namespace Aml

/-- C1: what stop actually guarantees.  Stopping a started signal removes it
from the loop's started list (so the loop will not emit it again) with the
event queue left untouched and the object alive; and the next aml_dispatch
still invokes the callback of every source that was already sitting in the
event queue — including one that was stopped after being enqueued — so the
claimed "callback not invoked after stop returns" does not hold for
already-queued sources. -/
theorem C1_stop_cancels_amended (st : AmlState) (lk k : Nat) (L : LoopState)
    (o : Obj)
    (hL : findLoop st lk = some L)
    (hk : findObj st k = some o)
    (ht : o.type = .signal)
    (hmem : k ∈ L.objList)
    (hcount : L.objList.count k ≤ 1)
    (hdel : (loopBackend st lk).delSignalOk = true)
    (href : 2 ≤ o.ref) :
    (∃ st1, aml_stop st lk k = some (0, st1) ∧
      aml_is_started st1 lk k = false ∧
      (findLoop st1 lk).map (fun LL => LL.eventQueue) = some L.eventQueue ∧
      (findObj st1 k).map (fun ob => (ob.ref, ob.hasCb)) =
        some (o.ref - 1, o.hasCb)) ∧
    (∀ (st2 : AmlState) (L2 : LoopState) (now fuelQ : Nat),
      findLoop st2 lk = some L2 →
      noDueTimerB st2 lk now = true →
      queueLiveB st2 lk = true →
      L2.idleList = [] →
      L2.eventQueue.length < fuelQ →
      ∃ st', aml_dispatch noopEnv 1 fuelQ now st2 lk = some st' ∧
        st'.invoked = st2.invoked ++
          L2.eventQueue.filter (fun j => hasCbB st2 j)) := by
  constructor
  · have hkA : assocFind st.objs k = some o := hk
    have hLA : assocFind st.loops lk = some L := hL
    have hdelL : L.backend.delSignalOk = true := by
      rw [loopBackend_eq, hLA] at hdel
      simpa using hdel
    have h0 : ¬ (o.ref = 0) := by omega
    have h1 : ¬ (o.ref - 1 = 0) := by omega
    refine ⟨updateObj k (fun ob => { ob with ref := o.ref - 1 })
      (updateObj k (fun ob => { ob with ref := o.ref })
        (updateLoop lk (fun LL => { LL with objList := removeFirst k LL.objList })
          (updateObj k (fun ob => { ob with ref := ob.ref + 1 }) st))),
      ?_, ?_, ?_, ?_⟩
    · simp [aml_stop, aml_ref, aml__obj_try_remove, aml__obj_remove,
        aml__stop_unchecked, aml__stop_signal, aml_unref_src,
        findObj_mk, findLoop_mk, loopBackend_mk, objs_updateObj,
        objs_updateLoop, loops_updateObj, loops_updateLoop,
        invoked_updateObj, invoked_updateLoop,
        globalList_updateObj, globalList_updateLoop,
        findObj_eq_assocFind, findLoop_eq_assocFind, loopBackend_eq,
        assocFind_assocUpdate, updateObj, updateLoop,
        hkA, hLA, hmem, ht, hdelL, h0, h1]
    · simp [aml_is_started, aml__obj_is_started_unlocked,
        findLoop_eq_assocFind, loops_updateObj, loops_updateLoop,
        assocFind_assocUpdate, updateLoop, hLA]
      rw [removeFirst_eq_erase]
      intro hmem2
      have hc := List.count_pos_iff.mpr hmem2
      rw [List.count_erase_self] at hc
      omega
    · simp [findLoop_eq_assocFind, loops_updateObj, loops_updateLoop,
        assocFind_assocUpdate, updateLoop, hLA]
    · simp [findObj_eq_assocFind, objs_updateObj, objs_updateLoop,
        assocFind_assocUpdate, updateObj, hkA]
  · intro st2 L2 now fuelQ hL2 hnd hql hidle hfq
    exact dispatch_invokes st2 lk now fuelQ L2 hL2 hnd hql hidle hfq

theorem C1_stop_cancels_amended_witness :
    ((∃ st1, aml_stop sigQueuedState 0 1 = some (0, st1) ∧
      aml_is_started st1 0 1 = false ∧
      (findLoop st1 0).map (fun LL => LL.eventQueue) = some [1] ∧
      (findObj st1 1).map (fun ob => (ob.ref, ob.hasCb)) = some (2, true)) ∧
    (∀ (st2 : AmlState) (L2 : LoopState) (now fuelQ : Nat),
      findLoop st2 0 = some L2 →
      noDueTimerB st2 0 now = true →
      queueLiveB st2 0 = true →
      L2.idleList = [] →
      L2.eventQueue.length < fuelQ →
      ∃ st', aml_dispatch noopEnv 1 fuelQ now st2 0 = some st' ∧
        st'.invoked = st2.invoked ++
          L2.eventQueue.filter (fun j => hasCbB st2 j))) :=
  C1_stop_cancels_amended sigQueuedState 0 1
    { backend := { addFdOk := true, delFdOk := true, addSignalOk := true,
                   delSignalOk := true, enqueueWorkOk := true,
                   edgeTriggered := false },
      objList := [1], timerList := [], idleList := [], eventQueue := [1],
      setDeadlines := [], modFdLog := [], interrupts := 0 }
    { type := .signal, ref := 3, id := 1, hasCb := true, fd := -1,
      eventMask := 1, revents := 0, timeout := 0, deadline := 0, signo := 2,
      parent := none }
    (by decide) (by decide) (by decide) (by decide) (by decide) (by decide)
    (by decide)

end Aml
